import Mathlib

/-!
Verification development for the site_image_crawler repository.

The crawl engine under verification is `SimpleCrawlerService`
(server/services/simple-crawler.ts, the service wired into the HTTP routes),
together with `MemStorage` (server/storage.ts) and the shared schema.

Strings are embedded as `List Char` (`Str`).  JavaScript's
`String.prototype.replace(/pat/g, r)` (left-to-right, non-overlapping,
replacements not rescanned) is embedded as `replace1`.  Loops are embedded
as fuel-indexed structural recursions so that every definition is
executable by kernel reduction; the fuel is a termination device only and
every theorem either holds for all fuel values or is evaluated at a fuel
large enough that the loop reaches its natural exit.

Platform built-ins that the crawler calls (the WHATWG `URL` constructor and
the network `fetch`) are not part of the repository; they enter the
embedding as explicit oracle parameters (`res`, `parse`, `attempts`) of
`CrawlEnv`, so all universal theorems quantify over every possible
behaviour of those built-ins, and concrete runs instantiate them with
small spec-modelled instances.
-/

/-- Embedded string type: JavaScript strings as lists of characters. -/
abbrev Str := List Char

/-- Literal helper: the character list of a Lean string literal. -/
def S (s : String) : Str := s.data

/-- The apostrophe character (U+0027). -/
def squot : Char := Char.ofNat 39

/-- JavaScript `\s` (the ASCII part): space, tab, LF, VT, FF, CR. -/
def jsWs (c : Char) : Bool :=
  c = ' ' || c = '\t' || c = '\n' || c = '\x0b' || c = '\x0c' || c = '\r'

/-- A double or single quote, the character class `["']`. -/
def isQuote (c : Char) : Bool := c = '"' || c = squot

/-- `Math.round((num / den) * 100)` on a non-negative rational `num/den`:
round-half-up, i.e. `⌊100*num/den + 1/2⌋`. -/
def jsRound100 (num den : Nat) : Nat := (200 * num + den) / (2 * den)

/-- Worker for `replace1`: scans the text left to right; the `Nat` argument
is the number of characters still to be skipped because they were consumed
by the previous match (the replacement itself is not rescanned, as with a
JavaScript global-regex replace). -/
def replGo (c : Char) (ps r : Str) : Nat → Str → Str
  | _ + 1, [] => []
  | k + 1, _ :: t => replGo c ps r k t
  | 0, [] => []
  | 0, d :: t =>
    if (c :: ps) <+: (d :: t) then r ++ replGo c ps r ps.length t
    else d :: replGo c ps r 0 t

/-- `text.replace(/pat/g, r)` for a fixed literal pattern `pat`:
left-to-right, non-overlapping, replacements not rescanned. -/
def replace1 (pat r t : Str) : Str :=
  match pat with
  | [] => t
  | c :: ps => replGo c ps r 0 t

/-- `SimpleCrawlerService.decodeHtmlEntities`: six sequential global
replaces, in source order `&amp;`, `&lt;`, `&gt;`, `&quot;`, `&#39;`,
`&nbsp;`. -/
def decodeHtmlEntities (t : Str) : Str :=
  replace1 (S "&nbsp;") (S " ")
    (replace1 (S "&#39;") [squot]
      (replace1 (S "&quot;") (S "\"")
        (replace1 (S "&gt;") (S ">")
          (replace1 (S "&lt;") (S "<")
            (replace1 (S "&amp;") (S "&") t)))))

/-- First step of `fixNextJsImageUrl`: when neither `w=` nor `width=`
occurs, append `w=640` behind a `&` separator if the URL already contains
`?`, else behind `?`. -/
def fixStepW (url : Str) : Str :=
  if ¬ S "w=" <:+: url ∧ ¬ S "width=" <:+: url then
    url ++ ((if S "?" <:+: url then S "&" else S "?") ++ S "w=640")
  else url

/-- Second step of `fixNextJsImageUrl`: append `&q=75` when `q=` does not
occur in the (possibly already extended) URL. -/
def fixStepQ (url1 : Str) : Str :=
  if ¬ S "q=" <:+: url1 then url1 ++ S "&q=75" else url1

/-- `SimpleCrawlerService.fixNextJsImageUrl`: for URLs containing
`/_next/image` and `url=`, ensure a width parameter (`fixStepW`) and then
a quality parameter (`fixStepQ`, checked on the updated URL). -/
def fixNextJsImageUrl (url : Str) : Str :=
  if S "/_next/image" <:+: url ∧ S "url=" <:+: url then fixStepQ (fixStepW url)
  else url

/-- Case-insensitive literal prefix test (the `/i` regex flag): `pat` is
given in lower case and is compared against the lower-cased text. -/
def ciPref : Str → Str → Bool
  | [], _ => true
  | _ :: _, [] => false
  | p :: ps, c :: cs => p = c.toLower && ciPref ps cs

/-- Split a string at the first occurrence of `stop`: returns the part
strictly before it and the part strictly after it, or `none` if `stop`
does not occur. -/
def splitAtChar (stop : Char) : Str → Option (Str × Str)
  | [] => none
  | c :: t =>
    if c = stop then some ([], t)
    else
      match splitAtChar stop t with
      | some (a, b) => some (c :: a, b)
      | none => none

/-- Global scan for `/<tag[^>]+>/gi` where `pat` is the literal opening
(e.g. `<img`, `<source`): a match is the opening, at least one non-`>`
character, and the first following `>`; on a failed position the scan
advances one character; after a match it continues after the `>`.  The
`Nat` argument is recursion fuel (the input length always suffices). -/
def scanTags (pat : Str) : Nat → Str → List Str
  | 0, _ => []
  | _ + 1, [] => []
  | fuel + 1, c :: t =>
    if ciPref pat (c :: t) then
      match splitAtChar '>' ((c :: t).drop pat.length) with
      | some (body, after) =>
        if body ≠ [] then
          ((c :: t).take pat.length ++ body ++ ['>']) :: scanTags pat fuel after
        else scanTags pat fuel t
      | none => scanTags pat fuel t
    else scanTags pat fuel t

/-- The `\s*=\s*["']([^"']*)["']` part of the attribute regexes: optional
whitespace, `=`, optional whitespace, a quote (double or single), a
possibly-empty run of non-quote characters, and a closing quote (either
kind, not necessarily matching the opening one). -/
def attrValue (t : Str) : Option Str :=
  match t.dropWhile (fun c => jsWs c) with
  | '=' :: t2 =>
    match t2.dropWhile (fun c => jsWs c) with
    | q :: t4 =>
      if isQuote q then
        let v := t4.takeWhile (fun c => ¬ isQuote c)
        match t4.drop v.length with
        | q2 :: _ => if isQuote q2 then some v else none
        | [] => none
      else none
    | [] => none
  | _ => none

/-- First match of `/name\s*=\s*["']([^"']*)["']/i` in `t` (e.g.
`tag.match(/src\s*=\s*["']([^"']*)["']/i)`); the name may occur anywhere,
including inside a longer attribute name, exactly as with the source
regex. -/
def findAttr (name : Str) : Str → Option Str
  | [] => none
  | c :: t =>
    if ciPref name (c :: t) then
      match attrValue ((c :: t).drop name.length) with
      | some v => some v
      | none => findAttr name t
    else findAttr name t

/-- First case-insensitive occurrence of the literal `pat`: returns the
text before the match, the matched characters (original case), and the
text after. -/
def findCI (pat : Str) : Str → Option (Str × Str × Str)
  | [] => none
  | c :: t =>
    if ciPref pat (c :: t) then
      some ([], (c :: t).take pat.length, (c :: t).drop pat.length)
    else
      match findCI pat t with
      | some (b, m, a) => some (c :: b, m, a)
      | none => none

/-- Global scan for `/<picture[^>]*>([\s\S]*?)<\/picture>/gi`: the opening
tag (attributes may be empty), then the lazily-shortest body up to the
first case-insensitive `</picture>`; the whole matched slice is
returned. -/
def scanPictures : Nat → Str → List Str
  | 0, _ => []
  | _ + 1, [] => []
  | fuel + 1, c :: t =>
    if ciPref (S "<picture") (c :: t) then
      match splitAtChar '>' ((c :: t).drop 8) with
      | some (attrs, rest1) =>
        match findCI (S "</picture>") rest1 with
        | some (inner, m, after) =>
          ((c :: t).take 8 ++ attrs ++ ['>'] ++ inner ++ m) :: scanPictures fuel after
        | none => scanPictures fuel t
      | none => scanPictures fuel t
    else scanPictures fuel t

/-- The `["']?\s*\)` tail of the CSS url pattern: an optional closing
quote, optional whitespace, then the required `)`. -/
def cssClose (cap rem : Str) : Option (Str × Str) :=
  let rem1 :=
    match rem with
    | q :: r => if isQuote q then r else q :: r
    | [] => []
  match rem1.dropWhile (fun c => jsWs c) with
  | ')' :: r => some (cap, r)
  | _ => none

/-- The `["']?([^"')]+)` part of the CSS url pattern, with the regex
backtracking behaviour: a leading quote is consumed greedily, the capture
is the maximal nonempty run of characters other than quotes and `)`, and
an empty run fails the match (no shorter-run backtrack can succeed). -/
def cssCapture (t : Str) : Option (Str × Str) :=
  match t with
  | q :: t2 =>
    if isQuote q then
      let run := t2.takeWhile (fun c => ¬ (isQuote c || c = ')'))
      if run ≠ [] then cssClose run (t2.drop run.length) else none
    else
      let run := (q :: t2).takeWhile (fun c => ¬ (isQuote c || c = ')'))
      if run ≠ [] then cssClose run ((q :: t2).drop run.length) else none
  | [] => none

/-- After the literal `background-image`: `\s*:\s*url\s*\(\s*` then the
quoted capture and closing parenthesis.  Returns the capture and the text
after the full match. -/
def cssTail (t : Str) : Option (Str × Str) :=
  match t.dropWhile (fun c => jsWs c) with
  | ':' :: t2 =>
    let t3 := t2.dropWhile (fun c => jsWs c)
    if (S "url").isPrefixOf t3 then
      match (t3.drop 3).dropWhile (fun c => jsWs c) with
      | '(' :: t5 => cssCapture (t5.dropWhile (fun c => jsWs c))
      | _ => none
    else none
  | _ => none

/-- Global scan (exec loop) for
`/background-image\s*:\s*url\s*\(\s*["']?([^"')]+)["']?\s*\)/g`
(case-sensitive, no `i` flag): yields (capture, full match text) pairs. -/
def scanCss : Nat → Str → List (Str × Str)
  | 0, _ => []
  | _ + 1, [] => []
  | fuel + 1, c :: t =>
    if (S "background-image").isPrefixOf (c :: t) then
      match cssTail ((c :: t).drop 16) with
      | some (cap, after) =>
        (cap, (c :: t).take ((c :: t).length - after.length)) :: scanCss fuel after
      | none => scanCss fuel t
    else scanCss fuel t

/-- `href\s*=\s*["']([^"']+)["'][^>]*>`: the href attribute with a
nonempty value (the value class excludes only quotes, so it may span a
`>`), then any non-`>` characters and the closing `>`.  Returns the
capture and the text after that `>`. -/
def hrefFull (t : Str) : Option (Str × Str) :=
  if ciPref (S "href") t then
    match (t.drop 4).dropWhile (fun c => jsWs c) with
    | '=' :: t2 =>
      match t2.dropWhile (fun c => jsWs c) with
      | q :: t4 =>
        if isQuote q then
          let v := t4.takeWhile (fun c => ¬ isQuote c)
          if v ≠ [] then
            match t4.drop v.length with
            | q2 :: rem =>
              if isQuote q2 then
                match rem.dropWhile (fun c => c ≠ '>') with
                | '>' :: r => some (v, r)
                | _ => none
              else none
            | [] => none
          else none
        else none
      | [] => none
    | _ => none
  else none

/-- Backtracking of the greedy `[^>]+` in the anchor regex: try the href
pattern at offsets `p, p-1, …, 1` into the candidate body and keep the
largest offset that matches (the regex prefers the longest `[^>]+`). -/
def tryHrefs (body0 : Str) : Nat → Option (Str × Str)
  | 0 => none
  | p + 1 =>
    match hrefFull (body0.drop (p + 1)) with
    | some x => some x
    | none => tryHrefs body0 p

/-- Global scan for `/<a[^>]+href\s*=\s*["']([^"']+)["'][^>]*>/gi`:
returns the captured href values in document order. -/
def scanATags : Nat → Str → List Str
  | 0, _ => []
  | _ + 1, [] => []
  | fuel + 1, c :: t =>
    if ciPref (S "<a") (c :: t) then
      let body0 := (c :: t).drop 2
      match tryHrefs body0 (body0.takeWhile (fun ch => ch ≠ '>')).length with
      | some (cap, after) => cap :: scanATags fuel after
      | none => scanATags fuel t
    else scanATags fuel t

/-- `srcset.split(',')[0].trim().split(' ')[0]`: first comma-separated
entry, trimmed, first space-separated token. -/
def firstSrcOf (ss : Str) : Str :=
  let first := ss.takeWhile (fun c => c ≠ ',')
  let trimmed :=
    ((first.dropWhile (fun c => jsWs c)).reverse.dropWhile (fun c => jsWs c)).reverse
  trimmed.takeWhile (fun c => c ≠ ' ')

example :
    scanTags (S "<img") 40 (S "<p><img src=\"/a.png\" alt=\"hi\"><img>")
      = [S "<img src=\"/a.png\" alt=\"hi\">"] := by decide
example : findAttr (S "src") (S "<img src=\"/a.png\">") = some (S "/a.png") := by decide
example : findAttr (S "src") (S "<img SRC='x'>") = some (S "x") := by decide
example : findAttr (S "alt") (S "<img src='a'>") = none := by decide
example :
    scanCss 60 (S "<div style=\"background-image:url(x.png)\"></div>")
      = [(S "x.png", S "background-image:url(x.png)")] := by decide
example : scanATags 40 (S "<a href=\"/p2\">x</a>") = [S "/p2"] := by decide
example : firstSrcOf (S " /b.png 2x, /c.png 3x") = S "/b.png" := by decide

/-- Result of the platform `new URL(abs)` on an absolute URL: origin,
pathname, and the serialization with the fragment removed (`url.hash = '';
url.toString()`).  The parser itself is a platform built-in, so it enters
the embedding as an oracle `Str → Option UrlParts` (`none` = the
constructor throws). -/
structure UrlParts where
  origin : Str
  pathname : Str
  noHash : Str
deriving Repr, DecidableEq

/-- `SimpleCrawlerService.resolveUrl`: `new URL(url, baseUrl).toString()`
with the catch block returning the unresolved input unchanged.  `res` is
the resolution oracle for the platform URL constructor (`none` =
throws). -/
def resolveUrl (res : Str → Str → Option Str) (url base : Str) : Str :=
  match res url base with
  | some u => u
  | none => url

/-- An extracted image candidate `{imageUrl, altText, html}`. -/
structure ImageCandidate where
  imageUrl : Str
  altText : Str
  html : Str
deriving Repr, DecidableEq

/-- The `<img>` branch of `extractImages`: a tag contributes a candidate
when it has a nonempty `src`; the URL is resolved, then
`fixNextJsImageUrl`, then `decodeHtmlEntities` (source order); the alt
text is entity-decoded when present, else empty. -/
def imgTagCandidate (res : Str → Str → Option Str) (base tag : Str) :
    Option ImageCandidate :=
  match findAttr (S "src") tag with
  | some s =>
    if s ≠ [] then
      some { imageUrl := decodeHtmlEntities (fixNextJsImageUrl (resolveUrl res s base)),
             altText :=
               match findAttr (S "alt") tag with
               | some a => decodeHtmlEntities a
               | none => [],
             html := tag }
    else none
  | none => none

/-- The `<picture>/<source>` branch of `extractImages`: a `<source>` with a
nonempty `srcset` contributes its first entry's URL token, with the same
resolve → fix-up → decode pipeline and empty alt text. -/
def sourceTagCandidate (res : Str → Str → Option Str) (base source : Str) :
    Option ImageCandidate :=
  match findAttr (S "srcset") source with
  | some ss =>
    if ss ≠ [] then
      let firstSrc := firstSrcOf ss
      if firstSrc ≠ [] then
        some { imageUrl := decodeHtmlEntities (fixNextJsImageUrl (resolveUrl res firstSrc base)),
               altText := [], html := source }
      else none
    else none
  | none => none

/-- `SimpleCrawlerService.extractImages`: `<img>` candidates, then
`<picture>/<source>` candidates, then (only when `includeCssBackgrounds`)
CSS `background-image: url(...)` candidates. -/
def extractImages (res : Str → Str → Option Str) (html base : Str)
    (includeCssBackgrounds : Bool) : List ImageCandidate :=
  ((scanTags (S "<img") html.length html).filterMap (imgTagCandidate res base))
  ++ ((scanPictures html.length html).flatMap fun pic =>
      (scanTags (S "<source") pic.length pic).filterMap (sourceTagCandidate res base))
  ++ (if includeCssBackgrounds then
        (scanCss html.length html).map fun cf =>
          { imageUrl := decodeHtmlEntities (fixNextJsImageUrl (resolveUrl res cf.1 base)),
            altText := [], html := cf.2 }
      else [])

/-- A raw extraction result before any URL post-processing: the source URL
text, the raw alt capture (img branch only), and the matched markup. -/
structure RawCandidate where
  src : Str
  altRaw : Option Str
  html : Str
deriving Repr, DecidableEq

/-- Raw `<img>` extraction (same gating as `imgTagCandidate`, no URL
post-processing). -/
def rawImgCandidate (tag : Str) : Option RawCandidate :=
  match findAttr (S "src") tag with
  | some s => if s ≠ [] then some ⟨s, findAttr (S "alt") tag, tag⟩ else none
  | none => none

/-- Raw `<source>` extraction (same gating as `sourceTagCandidate`). -/
def rawSourceCandidate (source : Str) : Option RawCandidate :=
  match findAttr (S "srcset") source with
  | some ss =>
    if ss ≠ [] then
      let firstSrc := firstSrcOf ss
      if firstSrc ≠ [] then some ⟨firstSrc, none, source⟩ else none
    else none
  | none => none

/-- All raw image extraction results of a page, in candidate order. -/
def rawCandidates (html : Str) (includeCss : Bool) : List RawCandidate :=
  ((scanTags (S "<img") html.length html).filterMap rawImgCandidate)
  ++ ((scanPictures html.length html).flatMap fun pic =>
      (scanTags (S "<source") pic.length pic).filterMap rawSourceCandidate)
  ++ (if includeCss then (scanCss html.length html).map (fun cf => ⟨cf.1, none, cf.2⟩) else [])

/-- The post-processing pipeline in the order the specification states it:
resolve, then entity-decode, then the `/_next/image` fix-up. -/
def specOrderCandidate (res : Str → Str → Option Str) (base : Str)
    (rc : RawCandidate) : ImageCandidate :=
  { imageUrl := fixNextJsImageUrl (decodeHtmlEntities (resolveUrl res rc.src base)),
    altText :=
      match rc.altRaw with
      | some a => decodeHtmlEntities a
      | none => [],
    html := rc.html }

/-- The non-page extensions filtered out of the link frontier. -/
def skipExtensions : List Str :=
  [S ".pdf", S ".doc", S ".docx", S ".zip", S ".exe", S ".dmg", S ".jpg", S ".jpeg",
   S ".png", S ".gif", S ".svg", S ".webp", S ".ico", S ".css", S ".js"]

/-- `SimpleCrawlerService.extractLinks`: every anchor href, resolved
against the current page, re-parsed; kept only when same-origin, with the
fragment stripped and the (lower-cased) pathname not ending in a skipped
extension; parse failures are silently dropped. -/
def extractLinks (res : Str → Str → Option Str) (parse : Str → Option UrlParts)
    (html currentUrl baseOrigin : Str) : List Str :=
  (scanATags html.length html).filterMap fun href =>
    match parse (resolveUrl res href currentUrl) with
    | some u =>
      if u.origin = baseOrigin then
        if ¬ skipExtensions.any (fun ext => ext.isSuffixOf (u.pathname.map Char.toLower)) then
          some u.noHash
        else none
      else none
    | none => none

/-- The image extensions recognised by `getImageType`. -/
def imageExtensions : List Str :=
  [S "jpg", S "jpeg", S "png", S "gif", S "svg", S "webp", S "bmp", S "ico"]

/-- `SimpleCrawlerService.getImageType`:
`url.split('.').pop().toLowerCase().split('?')[0]` checked against the
extension list, else null. -/
def getImageType (url : Str) : Option Str :=
  let ext0 := (url.reverse.takeWhile (fun c => c ≠ '.')).reverse
  let ext := (ext0.map Char.toLower).takeWhile (fun c => c ≠ '?')
  if ext ≠ [] ∧ ext ∈ imageExtensions then some ext else none

/-- `SimpleCrawlerService.getFilename`: last path segment of
`new URL(url).pathname`, or null when empty or when parsing throws. -/
def getFilename (parse : Str → Option UrlParts) (url : Str) : Option Str :=
  match parse url with
  | some u =>
    let fn := (u.pathname.reverse.takeWhile (fun c => c ≠ '/')).reverse
    if fn ≠ [] then some fn else none
  | none => none

/-- A crawl job record (schema `crawlJobs`; `createdAt` and the opaque id
generation are not modelled, timestamps are opaque `Nat`s). -/
structure CrawlJobRec where
  id : Str
  targetUrl : Str
  maxPages : Nat
  timeout : Nat
  includeCssBackgrounds : Bool
  status : Str
  progress : Nat
  pagesProcessed : Nat
  totalPagesFound : Nat
  imagesFound : Nat
  currentPage : Option Str
  error : Option Str
  completedAt : Option Nat
deriving Repr, DecidableEq

/-- An insert request for a crawl job (fields the insert schema keeps;
`none` = absent). -/
structure InsertCrawlJob where
  targetUrl : Str
  maxPages : Option Nat
  timeout : Option Nat
  includeCssBackgrounds : Option Bool
deriving Repr, DecidableEq

/-- JavaScript `v || dflt` for an optional number (`0` and `undefined` are
falsy). -/
def jsOrNat (v : Option Nat) (dflt : Nat) : Nat :=
  match v with
  | some n => if n ≠ 0 then n else dflt
  | none => dflt

/-- JavaScript `v || dflt` for an optional boolean (`false` and
`undefined` are falsy). -/
def jsOrBool (v : Option Bool) (dflt : Bool) : Bool :=
  match v with
  | some b => if b then b else dflt
  | none => dflt

/-- `MemStorage.createCrawlJob`: field defaults applied with JavaScript
`||` (in particular `includeCssBackgrounds: insertJob.includeCssBackgrounds
|| true`). -/
def createCrawlJob (id : Str) (insertJob : InsertCrawlJob) : CrawlJobRec :=
  { id := id,
    targetUrl := insertJob.targetUrl,
    maxPages := jsOrNat insertJob.maxPages 100,
    timeout := jsOrNat insertJob.timeout 60000,
    includeCssBackgrounds := jsOrBool insertJob.includeCssBackgrounds true,
    status := S "pending", progress := 0, pagesProcessed := 0,
    totalPagesFound := 0, imagesFound := 0, currentPage := none,
    error := none, completedAt := none }

/-- A partial job update (`Partial<CrawlJob>`): `none` = field absent from
the update object. -/
structure JobPatch where
  status : Option Str := none
  progress : Option Nat := none
  pagesProcessed : Option Nat := none
  totalPagesFound : Option Nat := none
  imagesFound : Option Nat := none
  currentPage : Option (Option Str) := none
  error : Option (Option Str) := none
  completedAt : Option (Option Nat) := none
deriving Repr, DecidableEq

/-- `MemStorage.updateCrawlJob` merge `{ ...job, ...updates }`: present
update fields override, absent fields keep the stored value. -/
def updateCrawlJob (job : CrawlJobRec) (u : JobPatch) : CrawlJobRec :=
  { job with
    status := u.status.getD job.status,
    progress := u.progress.getD job.progress,
    pagesProcessed := u.pagesProcessed.getD job.pagesProcessed,
    totalPagesFound := u.totalPagesFound.getD job.totalPagesFound,
    imagesFound := u.imagesFound.getD job.imagesFound,
    currentPage := u.currentPage.getD job.currentPage,
    error := u.error.getD job.error,
    completedAt := u.completedAt.getD job.completedAt }

/-- The insert object the crawler passes to
`storage.createCrawledImage`. -/
structure InsertCrawledImage where
  jobId : Str
  pageUrl : Str
  imageUrl : Str
  altText : Str
  imgTagHtml : Str
  imageType : Option Str
  filename : Option Str
deriving Repr, DecidableEq

/-- A stored image record (schema `crawledImages`, minus id/createdAt). -/
structure CrawledImageRec where
  jobId : Str
  pageUrl : Str
  imageUrl : Str
  altText : Option Str
  imgTagHtml : Option Str
  imageType : Option Str
  filename : Option Str
  dimensions : Option Str
deriving Repr, DecidableEq

/-- `MemStorage.createCrawledImage`: `altText || null` and
`imgTagHtml || null` turn empty strings into null; no other
transformation is applied to the stored fields. -/
def createCrawledImage (ins : InsertCrawledImage) : CrawledImageRec :=
  { jobId := ins.jobId, pageUrl := ins.pageUrl, imageUrl := ins.imageUrl,
    altText := if ins.altText ≠ [] then some ins.altText else none,
    imgTagHtml := if ins.imgTagHtml ≠ [] then some ins.imgTagHtml else none,
    imageType := ins.imageType, filename := ins.filename, dimensions := none }

/-- The insert the crawler builds from one extracted candidate
(`performSimpleCrawl`, save-images loop). -/
def mkImageInsert (parse : Str → Option UrlParts) (jobId pageUrl : Str)
    (c : ImageCandidate) : InsertCrawledImage :=
  { jobId := jobId, pageUrl := pageUrl, imageUrl := c.imageUrl, altText := c.altText,
    imgTagHtml := c.html, imageType := getImageType c.imageUrl,
    filename := getFilename parse c.imageUrl }

/-- A progress snapshot handed to the listener (`CrawlProgress`). -/
structure ProgressSnap where
  status : Str
  progress : Nat
  pagesProcessed : Nat
  totalPagesFound : Nat
  imagesFound : Nat
  currentPage : Option Str
  error : Option Str
deriving Repr, DecidableEq

/-- Outcome of one `fetch` attempt: a 2xx response with body HTML, a
non-2xx status (`response.ok` false), an abort by the timeout controller,
or any other fetch error. -/
inductive FetchAttempt where
  | ok (html : Str)
  | httpErr
  | timeoutErr
  | netErr
deriving Repr, DecidableEq

/-- Result of the per-page retry loop: the fetched HTML on success,
whether the exhausted-retries exit came from the generic error branch
(which increments `failedPages`), and the trace of attempts, each paired
with the delay slept after it (none for the final attempt). -/
structure RetryResult where
  result : Option Str
  netFail : Bool
  trace : List (FetchAttempt × Option Nat)
deriving Repr, DecidableEq

/-- `const maxRetries = 2` — maximum retry attempts for failed pages. -/
def maxRetries : Nat := 2

/-- The inner `while (retryCount <= maxRetries && !pageSuccess)` loop of
`performSimpleCrawl`: a non-ok status or generic error retries after
`1000 * retryCount` ms, a timeout retries after `2000 * retryCount` ms,
and when `retryCount` has reached `maxRetries` the loop breaks (only the
generic-error branch counts the page as failed).  The fuel
`maxRetries + 1` covers every reachable iteration. -/
def retryAux (att : Nat → FetchAttempt) (retryCount : Nat) : Nat → RetryResult
  | 0 => ⟨none, false, []⟩
  | fuel + 1 =>
    match att retryCount with
    | .ok h => ⟨some h, false, [(.ok h, none)]⟩
    | .httpErr =>
      if retryCount < maxRetries then
        let r := retryAux att (retryCount + 1) fuel
        ⟨r.result, r.netFail, (.httpErr, some (1000 * (retryCount + 1))) :: r.trace⟩
      else ⟨none, false, [(.httpErr, none)]⟩
    | .timeoutErr =>
      if retryCount < maxRetries then
        let r := retryAux att (retryCount + 1) fuel
        ⟨r.result, r.netFail, (.timeoutErr, some (2000 * (retryCount + 1))) :: r.trace⟩
      else ⟨none, false, [(.timeoutErr, none)]⟩
    | .netErr =>
      if retryCount < maxRetries then
        let r := retryAux att (retryCount + 1) fuel
        ⟨r.result, r.netFail, (.netErr, some (1000 * (retryCount + 1))) :: r.trace⟩
      else ⟨none, true, [(.netErr, none)]⟩

/-- One full fetch-with-retries of a page. -/
def fetchWithRetry (att : Nat → FetchAttempt) : RetryResult :=
  retryAux att 0 (maxRetries + 1)

/-- The environment of one crawl run: the platform URL oracles, the
network oracle (per URL, per attempt index), and the job record. -/
structure CrawlEnv where
  res : Str → Str → Option Str
  parse : Str → Option UrlParts
  attempts : Str → Nat → FetchAttempt
  job : CrawlJobRec

/-- The traversal state of `performSimpleCrawl`, extended with the
observable event logs: URLs whose fetch began, records handed to the
image store, job updates handed to the job store, snapshots emitted to
the listener. -/
structure CrawlState where
  visitedUrls : List Str
  urlsToVisit : List Str
  totalImages : Nat
  pagesProcessed : Nat
  failedPages : Nat
  fetchLog : List Str
  records : List CrawledImageRec
  updates : List JobPatch
  snaps : List ProgressSnap
deriving Repr, DecidableEq

/-- The success path of one loop iteration after the HTML arrived:
extract and persist images, count them, enqueue newly discovered links
not yet visited and not yet queued, increment `pagesProcessed`, persist
the in-loop progress update.  `st` already has the current URL marked
visited and removed from the queue. -/
def processPage (env : CrawlEnv) (currentUrl html : Str) (baseOrigin : Str)
    (st : CrawlState) : CrawlState :=
  let images := extractImages env.res html currentUrl env.job.includeCssBackgrounds
  let records' := st.records ++
    images.map (fun c => createCrawledImage (mkImageInsert env.parse env.job.id currentUrl c))
  let totalImages' := st.totalImages + images.length
  let newUrls := extractLinks env.res env.parse html currentUrl baseOrigin
  let queue' := newUrls.foldl
    (fun q url => if url ∉ st.visitedUrls ∧ url ∉ q then q ++ [url] else q) st.urlsToVisit
  let pages' := st.pagesProcessed + 1
  { st with
    records := records', totalImages := totalImages', urlsToVisit := queue',
    pagesProcessed := pages',
    updates := st.updates ++
      [{ progress := some (jsRound100 pages' env.job.maxPages),
         pagesProcessed := some pages',
         totalPagesFound := some (st.visitedUrls.length + queue'.length),
         imagesFound := some totalImages',
         currentPage := some (some currentUrl) }] }

/-- The running snapshot emitted after marking `currentUrl` visited and
before its fetch begins (`visitedUrls.size` already counts it). -/
def runningSnap (env : CrawlEnv) (currentUrl : Str) (rest : List Str)
    (st : CrawlState) : ProgressSnap :=
  { status := S "running",
    progress := jsRound100 st.pagesProcessed env.job.maxPages,
    pagesProcessed := st.pagesProcessed,
    totalPagesFound := (st.visitedUrls ++ [currentUrl]).length + rest.length,
    imagesFound := st.totalImages, currentPage := some currentUrl, error := none }

/-- The state in which the fetch of `currentUrl` begins: the URL is
dequeued, already marked visited, the running snapshot is emitted, and
the fetch-log entry records that the fetch starts. -/
def visitState (env : CrawlEnv) (currentUrl : Str) (rest : List Str)
    (st : CrawlState) : CrawlState :=
  { st with
    urlsToVisit := rest,
    visitedUrls := st.visitedUrls ++ [currentUrl],
    snaps := st.snaps ++ [runningSnap env currentUrl rest st],
    fetchLog := st.fetchLog ++ [currentUrl] }

/-- The `while (urlsToVisit.length > 0 && pagesProcessed < job.maxPages)`
traversal loop: dequeue; skip already-visited URLs; otherwise mark
visited, emit the running snapshot, fetch with retries, and on success
process the page; a page whose retries are exhausted is skipped.  The
`Nat` argument is recursion fuel. -/
def crawlLoop (env : CrawlEnv) (baseOrigin : Str) : Nat → CrawlState → CrawlState
  | 0, st => st
  | fuel + 1, st =>
    match st.urlsToVisit with
    | [] => st
    | currentUrl :: rest =>
      if st.pagesProcessed < env.job.maxPages then
        if currentUrl ∈ st.visitedUrls then
          crawlLoop env baseOrigin fuel { st with urlsToVisit := rest }
        else
          let st1 := visitState env currentUrl rest st
          let r := fetchWithRetry (env.attempts currentUrl)
          match r.result with
          | some html => crawlLoop env baseOrigin fuel (processPage env currentUrl html baseOrigin st1)
          | none =>
            crawlLoop env baseOrigin fuel
              (if r.netFail then { st1 with failedPages := st1.failedPages + 1 } else st1)
      else st

/-- The completion update written after the loop: status completed,
progress 100, `totalPagesFound := visitedUrls.size` (not visited +
queued), current page cleared, `completedAt` stamped. -/
def completionPatch (st : CrawlState) : JobPatch :=
  { status := some (S "completed"), progress := some 100,
    pagesProcessed := some st.pagesProcessed,
    totalPagesFound := some st.visitedUrls.length,
    imagesFound := some st.totalImages,
    currentPage := some none, completedAt := some (some 0) }

/-- The final snapshot emitted after the loop. -/
def completionSnap (st : CrawlState) : ProgressSnap :=
  { status := S "completed", progress := 100, pagesProcessed := st.pagesProcessed,
    totalPagesFound := st.visitedUrls.length, imagesFound := st.totalImages,
    currentPage := none, error := none }

/-- Append the completion update and final snapshot. -/
def applyCompletion (st : CrawlState) : CrawlState :=
  { st with updates := st.updates ++ [completionPatch st],
            snaps := st.snaps ++ [completionSnap st] }

/-- The snapshot emitted immediately on entering the running state. -/
def initialSnap (targetUrl : Str) : ProgressSnap :=
  { status := S "running", progress := 0, pagesProcessed := 0, totalPagesFound := 1,
    imagesFound := 0, currentPage := some targetUrl, error := none }

/-- The `{ status: 'running' }` update written at the top of
`performSimpleCrawl`. -/
def runningPatch : JobPatch := { status := some (S "running") }

/-- The traversal state at loop entry: queue seeded with the target URL,
running patch written, initial snapshot emitted. -/
def initState (env : CrawlEnv) : CrawlState :=
  { visitedUrls := [], urlsToVisit := [env.job.targetUrl], totalImages := 0,
    pagesProcessed := 0, failedPages := 0, fetchLog := [], records := [],
    updates := [runningPatch], snaps := [initialSnap env.job.targetUrl] }

/-- `SimpleCrawlerService.performSimpleCrawl`: writes the running update,
computes the base origin from the target URL (a parse failure throws out
of the method before the initial snapshot), runs the loop, then applies
the completion update and final snapshot. -/
def performSimpleCrawl (env : CrawlEnv) (fuel : Nat) :
    Except (CrawlState × Str) CrawlState :=
  match env.parse env.job.targetUrl with
  | none =>
    .error ({ visitedUrls := [], urlsToVisit := [], totalImages := 0, pagesProcessed := 0,
              failedPages := 0, fetchLog := [], records := [], updates := [runningPatch],
              snaps := [] }, S "Invalid URL")
  | some tparts =>
    .ok (applyCompletion (crawlLoop env tparts.origin fuel (initState env)))

/-- The failure update of `startCrawl`'s catch block: only status, error
and completedAt are present. -/
def failPatch (msg : Str) : JobPatch :=
  { status := some (S "failed"), error := some (some msg), completedAt := some (some 0) }

/-- The failure snapshot of `startCrawl`'s catch block: all counters are
hard-coded to zero. -/
def failSnap (msg : Str) : ProgressSnap :=
  { status := S "failed", progress := 0, pagesProcessed := 0, totalPagesFound := 0,
    imagesFound := 0, currentPage := none, error := some msg }

/-- Append the failure update and failure snapshot (the catch block of
`startCrawl`). -/
def applyFailure (st : CrawlState) (msg : Str) : CrawlState :=
  { st with updates := st.updates ++ [failPatch msg], snaps := st.snaps ++ [failSnap msg] }

/-- `startCrawl` after the job was found: run the crawl; an error escaping
the traversal triggers the failure update and snapshot. -/
def startCrawlRun (env : CrawlEnv) (fuel : Nat) : CrawlState :=
  match performSimpleCrawl env fuel with
  | .ok st => st
  | .error (st, msg) => applyFailure st msg

/-- Scheme split of an absolute http(s) URL: the scheme prefix including
`://` and the remainder. -/
def absParts (url : Str) : Option (Str × Str) :=
  if (S "https://").isPrefixOf url then some (S "https://", url.drop 8)
  else if (S "http://").isPrefixOf url then some (S "http://", url.drop 7)
  else none

/-- Modelled from the spec: the platform WHATWG `URL` parse of an absolute
URL (§4.1 `resolve(...) → absoluteUrl | failure(InvalidUrl)`), which is a
built-in not present in the repository.  Partial model: an http(s) URL
with a nonempty host parses into origin, pathname (an empty path
serializes as `/`) and the fragment-stripped serialization; a scheme-only
string such as `http://` (empty host) is an InvalidUrl failure.
Dot-segment and percent-encoding normalization are not modelled. -/
def specParse (url : Str) : Option UrlParts :=
  match absParts url with
  | some (sch, rest) =>
    let host := rest.takeWhile (fun c => c ≠ '/' ∧ c ≠ '?' ∧ c ≠ '#')
    if host ≠ [] then
      let tail := rest.drop host.length
      let beforeHash := tail.takeWhile (fun c => c ≠ '#')
      let path0 := beforeHash.takeWhile (fun c => c ≠ '?')
      let query := beforeHash.drop path0.length
      let pathname := if path0 = [] then S "/" else path0
      some { origin := sch ++ host, pathname := pathname,
             noHash := sch ++ host ++ pathname ++ query }
    else none
  | none => none

/-- Modelled from the spec: the platform `new URL(url, base)` resolution
(§4.1, standard base-URL joining), which is a built-in not present in the
repository.  Partial model: absolute http(s) URLs must have a nonempty
host (`http://` alone is an InvalidUrl failure, `none`); relative
references are joined to the base (root-relative against the origin,
protocol-relative against the scheme, bare relative against the base
directory); an empty input resolves to the base. -/
def specResolve (url base : Str) : Option Str :=
  match absParts url with
  | some (sch, rest) =>
    let host := rest.takeWhile (fun c => c ≠ '/' ∧ c ≠ '?' ∧ c ≠ '#')
    if host ≠ [] then
      let tail := rest.drop host.length
      let beforeHash := tail.takeWhile (fun c => c ≠ '#')
      let path0 := beforeHash.takeWhile (fun c => c ≠ '?')
      let query := beforeHash.drop path0.length
      let hash := tail.drop beforeHash.length
      let pathname := if path0 = [] then S "/" else path0
      some (sch ++ host ++ pathname ++ query ++ hash)
    else none
  | none =>
    match specParse base with
    | some b =>
      if url = [] then some b.noHash
      else if (S "//").isPrefixOf url then
        some ((b.origin.takeWhile (fun c => c ≠ '/')) ++ url)
      else if url.head? = some '/' then some (b.origin ++ url)
      else
        let dir := ((b.pathname.reverse.dropWhile (fun c => c ≠ '/'))).reverse
        some (b.origin ++ dir ++ url)
    | none => none

example : specResolve (S "http://") (S "https://s.example/") = none := by decide
example :
    specResolve (S "/a.png") (S "https://s.example/") = some (S "https://s.example/a.png") := by
  decide
example :
    specResolve (S "x.png") (S "https://s.example/dir/p") =
      some (S "https://s.example/dir/x.png") := by decide
example :
    specParse (S "https://s.example/p0") =
      some ⟨S "https://s.example", S "/p0", S "https://s.example/p0"⟩ := by decide
example : specParse (S "http://") = none := by decide

lemma mem_of_getLastQ {l : Str} {m : Char} (h : l.getLast? = some m) : m ∈ l := by
  have hne : l ≠ [] := by rintro rfl; simp at h
  rw [List.getLast?_eq_getLast_of_ne_nil hne] at h
  exact Option.some.inj h ▸ List.getLast_mem hne

lemma replGo_skip (c : Char) (ps r : Str) :
    ∀ (t : Str) (k : Nat), replGo c ps r k t = replGo c ps r 0 (t.drop k) := by
  intro t
  induction t with
  | nil => intro k; cases k <;> rfl
  | cons d t ih =>
    intro k
    cases k with
    | zero => rfl
    | succ j =>
      show replGo c ps r (j + 1) (d :: t) = replGo c ps r 0 ((d :: t).drop (j + 1))
      rw [show (d :: t).drop (j + 1) = t.drop j from rfl, ← ih j]
      rfl

/-- The scan equation of `replace1` on a cons cell. -/
lemma replace1_cons (c : Char) (ps r : Str) (d : Char) (t : Str) :
    replace1 (c :: ps) r (d :: t) =
      if (c :: ps) <+: (d :: t) then r ++ replace1 (c :: ps) r (t.drop ps.length)
      else d :: replace1 (c :: ps) r t := by
  show replGo c ps r 0 (d :: t) = _
  simp only [replGo, replGo_skip c ps r t ps.length]
  rfl

lemma replace1_nil (c : Char) (ps r : Str) : replace1 (c :: ps) r [] = [] := rfl

/-- A text with no occurrence of the pattern is left unchanged. -/
lemma replace1_eq_self {c : Char} {ps : Str} (r : Str) {t : Str}
    (h : ¬ (c :: ps) <:+: t) : replace1 (c :: ps) r t = t := by
  induction t with
  | nil => rfl
  | cons d t ih =>
    rw [replace1_cons]
    rw [if_neg (fun hp => h hp.isInfix)]
    rw [ih (fun hi => h (List.infix_cons hi))]

/-- Scanning `t ++ s` where the pattern ends in a marker character that
does not occur in `s`: no occurrence can lie in or span into `s`, so the
suffix passes through unchanged. -/
lemma replace1_append {c : Char} {ps q : Str} {m : Char} (r : Str) {s : Str}
    (hpat : c :: ps = q ++ [m]) (hs : m ∉ s) :
    ∀ (n : Nat) (t : Str), t.length ≤ n →
      replace1 (c :: ps) r (t ++ s) = replace1 (c :: ps) r t ++ s := by
  have hm_mem : m ∈ c :: ps := by rw [hpat]; simp
  have hms : ¬ (c :: ps) <:+: s := fun hi => hs (hi.subset hm_mem)
  intro n
  induction n with
  | zero =>
    intro t ht
    have h0 : t = [] := List.length_eq_zero.mp (Nat.le_zero.mp ht)
    subst h0
    simp [replace1_eq_self r hms, replace1_nil]
  | succ n ih =>
    intro t ht
    match t with
    | [] => simp [replace1_eq_self r hms, replace1_nil]
    | d :: t' =>
      have ht' : t'.length ≤ n := by simp at ht; omega
      simp only [List.cons_append]
      by_cases hp : (c :: ps) <+: d :: (t' ++ s)
      · have hp2 : (c :: ps) <+: (d :: t') ++ s := by simpa using hp
        by_cases hpp : (c :: ps) <+: (d :: t')
        · have hlen : ps.length ≤ t'.length := by
            have := hpp.length_le; simpa using this
          rw [replace1_cons, if_pos hp, replace1_cons, if_pos hpp]
          have hdrop : (t' ++ s).drop ps.length = t'.drop ps.length ++ s := by
            rw [List.drop_append_eq_append_drop, Nat.sub_eq_zero_of_le hlen, List.drop_zero]
          rw [hdrop, ih (t'.drop ps.length) (by rw [List.length_drop]; omega)]
          simp
        · exfalso
          rcases List.prefix_or_prefix_of_prefix hp2 (List.prefix_append (d :: t') s) with hca | hac
          · exact hpp hca
          · obtain ⟨p₂, hp₂⟩ := hac
            have hp₂ne : p₂ ≠ [] := by
              rintro rfl
              rw [List.append_nil] at hp₂
              exact hpp (hp₂ ▸ List.prefix_refl (d :: t'))
            have hlast : p₂.getLast? = some m := by
              have h1 : ((d :: t') ++ p₂).getLast? = some m := by
                rw [hp₂, hpat]; exact List.getLast?_concat q
              rwa [List.getLast?_append_of_ne_nil _ hp₂ne] at h1
            obtain ⟨w, hw⟩ := hp2
            rw [← hp₂, List.append_assoc] at hw
            have hsplit : p₂ ++ w = s := List.append_cancel_left hw
            exact hs (hsplit ▸ List.mem_append_left w (mem_of_getLastQ hlast))
      · have hpp : ¬ (c :: ps) <+: (d :: t') := fun h => hp (by simpa using h.trans (List.prefix_append (d :: t') s))
        rw [replace1_cons, if_neg hp, replace1_cons, if_neg hpp, ih t' ht']
        rfl

/-- A check string containing neither the pattern head nor the
replacement character is a prefix of the scanned text iff it is a prefix
of the original text. -/
lemma prefix_replace1_iff {c : Char} {ps : Str} {r0 : Char} :
    ∀ (n : Nat) (u : Str), u.length ≤ n → ∀ t : Str, c ∉ t → r0 ∉ t →
      (t <+: replace1 (c :: ps) [r0] u ↔ t <+: u) := by
  intro n
  induction n with
  | zero =>
    intro u hu t hc hr
    have h0 : u = [] := List.length_eq_zero.mp (Nat.le_zero.mp hu)
    subst h0
    rw [replace1_nil]
  | succ n ih =>
    intro u hu t hc hr
    match u with
    | [] => rw [replace1_nil]
    | d :: u' =>
      have hu' : u'.length ≤ n := by simp at hu; omega
      by_cases hp : (c :: ps) <+: (d :: u')
      · rw [replace1_cons, if_pos hp]
        simp only [List.singleton_append]
        have hcd : c = d := (List.cons_prefix_cons.mp hp).1
        match t with
        | [] => simp
        | e :: t' =>
          constructor
          · intro he
            exfalso
            apply hr
            rw [← (List.cons_prefix_cons.mp he).1]
            exact List.mem_cons_self _ _
          · intro he
            exfalso
            apply hc
            rw [show c = e from hcd.trans (List.cons_prefix_cons.mp he).1.symm]
            exact List.mem_cons_self _ _
      · rw [replace1_cons, if_neg hp]
        match t with
        | [] => simp
        | e :: t' =>
          rw [List.cons_prefix_cons, List.cons_prefix_cons,
              ih u' hu' t' (fun h => hc (List.mem_cons_of_mem e h))
                (fun h => hr (List.mem_cons_of_mem e h))]

/-- A check string avoiding the marker character that ends the pattern,
and not an infix of the pattern itself, occurs in `pattern ++ rest` iff it
occurs in `rest`. -/
lemma infix_elim_pattern {t : Str} {m : Char} (hmt : m ∉ t) :
    ∀ (P q : Str), P = q ++ [m] → ¬ t <:+: P → ∀ rest, (t <:+: P ++ rest ↔ t <:+: rest) := by
  intro P
  induction P with
  | nil => intro q hq; exact absurd hq (by simp)
  | cons x P' ihP =>
    intro q hq hip rest
    cases q with
    | nil =>
      simp only [List.nil_append] at hq
      have hx : x = m := by simpa using congrArg (·.headI) hq
      have hP' : P' = [] := by simpa using congrArg (·.tail) hq
      subst hx; subst hP'
      constructor
      · intro hi
        rcases List.infix_cons_iff.mp (by simpa using hi) with hpre | hinf
        · exfalso
          have hne : t ≠ [] := fun h => hip (h ▸ List.nil_infix)
          match t, hne with
          | e :: t', _ =>
            apply hmt
            rw [← (List.cons_prefix_cons.mp hpre).1]
            exact List.mem_cons_self _ _
        · exact hinf
      · intro hi
        exact (by simpa using List.infix_cons hi : t <:+: [x] ++ rest)
    | cons z q' =>
      have hxz : x = z ∧ P' = q' ++ [m] := by
        rw [show (z :: q') ++ [m] = z :: (q' ++ [m]) from rfl] at hq
        exact List.cons.injEq .. ▸ (by simpa using hq)
      have hipP' : ¬ t <:+: P' := fun h => hip (List.infix_cons h)
      constructor
      · intro hi
        rcases List.infix_cons_iff.mp (by simpa using hi) with hpre | hinf
        · rcases List.prefix_or_prefix_of_prefix
            (show t <+: (x :: P') ++ rest by simpa using hpre)
            (List.prefix_append (x :: P') rest) with h1 | h2
          · exact absurd h1.isInfix hip
          · have hm_mem : m ∈ x :: P' := by rw [hxz.2]; simp
            exact absurd (h2.subset hm_mem) hmt
        · exact (ihP q' hxz.2 hipP' rest).mp hinf
      · intro hi
        have h3 : t <:+: P' ++ rest := (ihP q' hxz.2 hipP' rest).mpr hi
        simpa using List.infix_cons h3

/-- The infix checks of `fixNextJsImageUrl` are invariant under one
entity-replacement pass, for check strings avoiding the pattern head, the
marker, and the replacement character, and not occurring inside the
pattern. -/
lemma infix_replace1_iff {c : Char} {ps q : Str} {m r0 : Char} {t : Str}
    (hpat : c :: ps = q ++ [m]) (hne : t ≠ []) (hc : c ∉ t) (hr : r0 ∉ t) (hmt : m ∉ t)
    (hip : ¬ t <:+: (c :: ps)) :
    ∀ (n : Nat) (u : Str), u.length ≤ n →
      (t <:+: replace1 (c :: ps) [r0] u ↔ t <:+: u) := by
  intro n
  induction n with
  | zero =>
    intro u hu
    have h0 : u = [] := List.length_eq_zero.mp (Nat.le_zero.mp hu)
    subst h0
    rw [replace1_nil]
  | succ n ih =>
    intro u hu
    match u with
    | [] => rw [replace1_nil]
    | d :: u' =>
      have hu' : u'.length ≤ n := by simp at hu; omega
      by_cases hp : (c :: ps) <+: (d :: u')
      · rw [replace1_cons, if_pos hp]
        simp only [List.singleton_append]
        obtain ⟨hcd, hps⟩ := List.cons_prefix_cons.mp hp
        obtain ⟨rest, hrest⟩ := hps
        have hdrop : u'.drop ps.length = rest := by rw [← hrest]; simp
        rw [hdrop]
        have hrl : rest.length ≤ n := by
          have : u'.length = ps.length + rest.length := by rw [← hrest]; simp
          omega
        have hlhs : (t <:+: r0 :: replace1 (c :: ps) [r0] rest) ↔
            t <:+: replace1 (c :: ps) [r0] rest := by
          rw [List.infix_cons_iff]
          constructor
          · rintro (hpre | hinf)
            · exfalso
              match t, hne with
              | e :: t', _ =>
                apply hr
                rw [← (List.cons_prefix_cons.mp hpre).1]
                exact List.mem_cons_self _ _
            · exact hinf
          · exact fun h => Or.inr h
        rw [hlhs, ih rest hrl]
        have hform : d :: u' = (c :: ps) ++ rest := by
          rw [← hrest, ← hcd]; rfl
        rw [hform, infix_elim_pattern hmt (c :: ps) q hpat hip rest]
      · rw [replace1_cons, if_neg hp]
        have hprefix : (t <+: d :: replace1 (c :: ps) [r0] u') ↔ (t <+: d :: u') := by
          have hform : d :: replace1 (c :: ps) [r0] u' = replace1 (c :: ps) [r0] (d :: u') := by
            rw [replace1_cons, if_neg hp]
          rw [hform]
          exact prefix_replace1_iff (n + 1) (d :: u') hu t hc hr
        rw [List.infix_cons_iff, List.infix_cons_iff, hprefix, ih u' hu']

/-- The conditions under which a check string's occurrence is invariant
under entity decoding: nonempty, avoiding every pattern head, marker and
replacement character, and not an infix of any of the six patterns. -/
def decodeSafeCheck (t : Str) : Prop :=
  t ≠ [] ∧ '&' ∉ t ∧ '<' ∉ t ∧ '>' ∉ t ∧ '"' ∉ t ∧ squot ∉ t ∧ ' ' ∉ t ∧ ';' ∉ t ∧
  ¬ t <:+: S "&amp;" ∧ ¬ t <:+: S "&lt;" ∧ ¬ t <:+: S "&gt;" ∧ ¬ t <:+: S "&quot;" ∧
  ¬ t <:+: S "&#39;" ∧ ¬ t <:+: S "&nbsp;"

instance (t : Str) : Decidable (decodeSafeCheck t) := by
  unfold decodeSafeCheck; infer_instance

/-- A safe check string occurs in the decoded text iff it occurs in the
original text. -/
lemma infix_decode_iff {t : Str} (h : decodeSafeCheck t) :
    ∀ u, t <:+: decodeHtmlEntities u ↔ t <:+: u := by
  obtain ⟨hne, hamp, hlt, hgt, hqt, hsq, hsp, hsemi, i1, i2, i3, i4, i5, i6⟩ := h
  intro u
  have p1 : ∀ v : Str, t <:+: replace1 (S "&amp;") (S "&") v ↔ t <:+: v := fun v =>
    infix_replace1_iff (q := S "&amp") (by decide) hne hamp hamp hsemi i1 v.length v le_rfl
  have p2 : ∀ v : Str, t <:+: replace1 (S "&lt;") (S "<") v ↔ t <:+: v := fun v =>
    infix_replace1_iff (q := S "&lt") (by decide) hne hamp hlt hsemi i2 v.length v le_rfl
  have p3 : ∀ v : Str, t <:+: replace1 (S "&gt;") (S ">") v ↔ t <:+: v := fun v =>
    infix_replace1_iff (q := S "&gt") (by decide) hne hamp hgt hsemi i3 v.length v le_rfl
  have p4 : ∀ v : Str, t <:+: replace1 (S "&quot;") (S "\"") v ↔ t <:+: v := fun v =>
    infix_replace1_iff (q := S "&quot") (by decide) hne hamp hqt hsemi i4 v.length v le_rfl
  have p5 : ∀ v : Str, t <:+: replace1 (S "&#39;") [squot] v ↔ t <:+: v := fun v =>
    infix_replace1_iff (q := S "&#39") (by decide) hne hamp hsq hsemi i5 v.length v le_rfl
  have p6 : ∀ v : Str, t <:+: replace1 (S "&nbsp;") (S " ") v ↔ t <:+: v := fun v =>
    infix_replace1_iff (q := S "&nbsp") (by decide) hne hamp hsp hsemi i6 v.length v le_rfl
  unfold decodeHtmlEntities
  exact (p6 _).trans ((p5 _).trans ((p4 _).trans ((p3 _).trans ((p2 _).trans (p1 u)))))

/-- Entity decoding commutes with appending a `;`-free suffix. -/
lemma decode_append {s : Str} (hs : ';' ∉ s) :
    ∀ u, decodeHtmlEntities (u ++ s) = decodeHtmlEntities u ++ s := by
  intro u
  have a1 : ∀ v : Str, replace1 (S "&amp;") (S "&") (v ++ s) =
      replace1 (S "&amp;") (S "&") v ++ s := fun v =>
    replace1_append (q := S "&amp") (S "&") (by decide) hs v.length v le_rfl
  have a2 : ∀ v : Str, replace1 (S "&lt;") (S "<") (v ++ s) =
      replace1 (S "&lt;") (S "<") v ++ s := fun v =>
    replace1_append (q := S "&lt") (S "<") (by decide) hs v.length v le_rfl
  have a3 : ∀ v : Str, replace1 (S "&gt;") (S ">") (v ++ s) =
      replace1 (S "&gt;") (S ">") v ++ s := fun v =>
    replace1_append (q := S "&gt") (S ">") (by decide) hs v.length v le_rfl
  have a4 : ∀ v : Str, replace1 (S "&quot;") (S "\"") (v ++ s) =
      replace1 (S "&quot;") (S "\"") v ++ s := fun v =>
    replace1_append (q := S "&quot") (S "\"") (by decide) hs v.length v le_rfl
  have a5 : ∀ v : Str, replace1 (S "&#39;") [squot] (v ++ s) =
      replace1 (S "&#39;") [squot] v ++ s := fun v =>
    replace1_append (q := S "&#39") [squot] (by decide) hs v.length v le_rfl
  have a6 : ∀ v : Str, replace1 (S "&nbsp;") (S " ") (v ++ s) =
      replace1 (S "&nbsp;") (S " ") v ++ s := fun v =>
    replace1_append (q := S "&nbsp") (S " ") (by decide) hs v.length v le_rfl
  unfold decodeHtmlEntities
  rw [a1, a2, a3, a4, a5, a6]

/-- Entity decoding commutes with the width step of the fix-up. -/
lemma decode_fixStepW_comm (u : Str) :
    decodeHtmlEntities (fixStepW u) = fixStepW (decodeHtmlEntities u) := by
  have hw := infix_decode_iff (t := S "w=") (by decide)
  have hwidth := infix_decode_iff (t := S "width=") (by decide)
  have hqm := infix_decode_iff (t := S "?") (by decide)
  unfold fixStepW
  by_cases h2 : ¬ S "w=" <:+: u ∧ ¬ S "width=" <:+: u
  · have h2' : ¬ S "w=" <:+: decodeHtmlEntities u ∧ ¬ S "width=" <:+: decodeHtmlEntities u :=
      ⟨fun hh => h2.1 ((hw u).mp hh), fun hh => h2.2 ((hwidth u).mp hh)⟩
    rw [if_pos h2, if_pos h2']
    by_cases hq : S "?" <:+: u
    · rw [if_pos hq, if_pos ((hqm u).mpr hq), decode_append (by decide)]
    · rw [if_neg hq, if_neg (fun hh => hq ((hqm u).mp hh)), decode_append (by decide)]
  · have h2' : ¬ (¬ S "w=" <:+: decodeHtmlEntities u ∧ ¬ S "width=" <:+: decodeHtmlEntities u) := by
      intro hh
      exact h2 ⟨fun hx => hh.1 ((hw u).mpr hx), fun hx => hh.2 ((hwidth u).mpr hx)⟩
    rw [if_neg h2, if_neg h2']

/-- Entity decoding commutes with the quality step of the fix-up. -/
lemma decode_fixStepQ_comm (v : Str) :
    decodeHtmlEntities (fixStepQ v) = fixStepQ (decodeHtmlEntities v) := by
  have hq := infix_decode_iff (t := S "q=") (by decide)
  unfold fixStepQ
  by_cases h : ¬ S "q=" <:+: v
  · rw [if_pos h, if_pos (fun hh => h ((hq v).mp hh)), decode_append (by decide)]
  · rw [if_neg h, if_neg (fun hh => h fun hx => hh ((hq v).mpr hx))]

/-- Six-entity HTML decoding commutes with the `/_next/image` fix-up: for
every URL, applying the fix-up first and decoding afterwards (the source
order) gives the same string as decoding first and fixing afterwards (the
order the specification states). -/
theorem decode_fixNextJs_comm (u : Str) :
    decodeHtmlEntities (fixNextJsImageUrl u) = fixNextJsImageUrl (decodeHtmlEntities u) := by
  have hnext := infix_decode_iff (t := S "/_next/image") (by decide)
  have hurl := infix_decode_iff (t := S "url=") (by decide)
  unfold fixNextJsImageUrl
  by_cases h1 : S "/_next/image" <:+: u ∧ S "url=" <:+: u
  · have h1' : S "/_next/image" <:+: decodeHtmlEntities u ∧
        S "url=" <:+: decodeHtmlEntities u := ⟨(hnext u).mpr h1.1, (hurl u).mpr h1.2⟩
    rw [if_pos h1, if_pos h1', decode_fixStepQ_comm, decode_fixStepW_comm]
  · have h1' : ¬ (S "/_next/image" <:+: decodeHtmlEntities u ∧
        S "url=" <:+: decodeHtmlEntities u) := by
      intro hh
      exact h1 ⟨(hnext u).mp hh.1, (hurl u).mp hh.2⟩
    rw [if_neg h1, if_neg h1']

/-- The candidates produced by `extractImages` (whose source order is
resolve → fix-up → decode) are exactly the raw extraction results mapped
through the specification-order pipeline resolve → decode → fix-up,
uniformly over all three sources. -/
theorem extractImages_eq_specOrder (res : Str → Str → Option Str) (html base : Str)
    (css : Bool) :
    extractImages res html base css =
      (rawCandidates html css).map (specOrderCandidate res base) := by
  have himg : ∀ tag : Str, imgTagCandidate res base tag =
      (rawImgCandidate tag).map (specOrderCandidate res base) := by
    intro tag
    cases hfa : findAttr (S "src") tag with
    | none => simp [imgTagCandidate, rawImgCandidate, hfa]
    | some s =>
      by_cases he : s = []
      · simp [imgTagCandidate, rawImgCandidate, hfa, he]
      · simp [imgTagCandidate, rawImgCandidate, specOrderCandidate, hfa, he,
              decode_fixNextJs_comm]
  have hsrcT : ∀ sourceTag : Str, sourceTagCandidate res base sourceTag =
      (rawSourceCandidate sourceTag).map (specOrderCandidate res base) := by
    intro sourceTag
    cases hfa : findAttr (S "srcset") sourceTag with
    | none => simp [sourceTagCandidate, rawSourceCandidate, hfa]
    | some ss =>
      by_cases he : ss = []
      · simp [sourceTagCandidate, rawSourceCandidate, hfa, he]
      · by_cases hf : firstSrcOf ss = []
        · simp [sourceTagCandidate, rawSourceCandidate, hfa, he, hf]
        · simp [sourceTagCandidate, rawSourceCandidate, specOrderCandidate, hfa, he, hf,
                decode_fixNextJs_comm]
  unfold extractImages rawCandidates
  rw [List.map_append, List.map_append]
  congr 1
  · congr 1
    · rw [List.map_filterMap]
      exact List.filterMap_congr fun tag _ => himg tag
    · rw [List.map_flatMap]
      apply congrArg
      funext pic
      rw [List.map_filterMap]
      exact List.filterMap_congr fun sTag _ => hsrcT sTag
  · cases css with
    | false => simp
    | true =>
      simp only [if_true, List.map_map]
      apply List.map_congr_left
      intro cf _
      simp [specOrderCandidate, decode_fixNextJs_comm, Function.comp]

/-- Projections of `processPage` needed by the invariants: it increments
`pagesProcessed` by one, leaves the snapshots, the visited set and the
fetch log unchanged, extends the queue by the enqueue fold, and appends
exactly one job update whose `pagesProcessed` field carries the
incremented value. -/
lemma processPage_fields (env : CrawlEnv) (u html o : Str) (st : CrawlState) :
    (processPage env u html o st).pagesProcessed = st.pagesProcessed + 1 ∧
    (processPage env u html o st).snaps = st.snaps ∧
    (processPage env u html o st).visitedUrls = st.visitedUrls ∧
    (processPage env u html o st).fetchLog = st.fetchLog ∧
    (processPage env u html o st).urlsToVisit =
      (extractLinks env.res env.parse html u o).foldl
        (fun q url => if url ∉ st.visitedUrls ∧ url ∉ q then q ++ [url] else q)
        st.urlsToVisit ∧
    ∃ patch : JobPatch, (processPage env u html o st).updates = st.updates ++ [patch] ∧
      patch.pagesProcessed = some (st.pagesProcessed + 1) :=
  ⟨rfl, rfl, rfl, rfl, rfl, _, rfl, rfl⟩

/-- The page-budget invariant: the loop counter and every persisted or
emitted `pagesProcessed` value is bounded by `m`. -/
def pagesBounded (m : Nat) (st : CrawlState) : Prop :=
  st.pagesProcessed ≤ m ∧
  (∀ p ∈ st.updates, ∀ v, p.pagesProcessed = some v → v ≤ m) ∧
  (∀ s ∈ st.snaps, s.pagesProcessed ≤ m)

lemma crawlLoop_pagesBounded (env : CrawlEnv) (o : Str) :
    ∀ (fuel : Nat) (st : CrawlState), pagesBounded env.job.maxPages st →
      pagesBounded env.job.maxPages (crawlLoop env o fuel st) := by
  intro fuel
  induction fuel with
  | zero => intro st h; simpa [crawlLoop] using h
  | succ n ih =>
    intro st h
    obtain ⟨h1, h2, h3⟩ := h
    cases hq : st.urlsToVisit with
    | nil => simp only [crawlLoop, hq]; exact ⟨h1, h2, h3⟩
    | cons u rest =>
      simp only [crawlLoop, hq]
      by_cases hlt : st.pagesProcessed < env.job.maxPages
      · rw [if_pos hlt]
        by_cases hv : u ∈ st.visitedUrls
        · rw [if_pos hv]
          exact ih _ ⟨h1, h2, h3⟩
        · rw [if_neg hv]
          have hst1 : pagesBounded env.job.maxPages (visitState env u rest st) := by
            refine ⟨h1, h2, ?_⟩
            intro s hs
            rcases List.mem_append.mp hs with hs | hs
            · exact h3 s hs
            · rw [List.mem_singleton.mp hs]
              exact h1
          obtain ⟨g1, g2, g3⟩ := hst1
          cases hr : (fetchWithRetry (env.attempts u)).result with
          | some html =>
            simp only [hr]
            apply ih
            obtain ⟨e1, e2, _, _, _, patch, e6, e7⟩ :=
              processPage_fields env u html o (visitState env u rest st)
            refine ⟨?_, ?_, ?_⟩
            · rw [e1]
              have : (visitState env u rest st).pagesProcessed = st.pagesProcessed := rfl
              omega
            · intro p hp v hveq
              rw [e6] at hp
              rcases List.mem_append.mp hp with hp | hp
              · exact g2 p hp v hveq
              · rw [List.mem_singleton.mp hp] at hveq
                rw [e7] at hveq
                have hv2 : v = (visitState env u rest st).pagesProcessed + 1 :=
                  (Option.some.inj hveq).symm
                have : (visitState env u rest st).pagesProcessed = st.pagesProcessed := rfl
                omega
            · intro s hs
              rw [e2] at hs
              exact g3 s hs
          | none =>
            simp only [hr]
            apply ih
            split
            · exact ⟨g1, g2, g3⟩
            · exact ⟨g1, g2, g3⟩
      · rw [if_neg hlt]
        exact ⟨h1, h2, h3⟩

/-- The enqueue fold keeps the frontier duplicate-free and disjoint from
the visited set. -/
lemma enqueueFold_inv (visited : List Str) :
    ∀ (newUrls q : List Str), q.Nodup → (∀ v ∈ q, v ∉ visited) →
      (newUrls.foldl (fun q url => if url ∉ visited ∧ url ∉ q then q ++ [url] else q) q).Nodup ∧
      ∀ v ∈ newUrls.foldl (fun q url => if url ∉ visited ∧ url ∉ q then q ++ [url] else q) q,
        v ∉ visited := by
  intro newUrls
  induction newUrls with
  | nil => exact fun q h1 h2 => ⟨h1, h2⟩
  | cons url tl ih =>
    intro q h1 h2
    simp only [List.foldl_cons]
    by_cases hc : url ∉ visited ∧ url ∉ q
    · rw [if_pos hc]
      apply ih
      · exact h1.append (List.nodup_singleton url) (List.disjoint_singleton.mpr hc.2)
      · intro v hvm
        rcases List.mem_append.mp hvm with hvm | hvm
        · exact h2 v hvm
        · rw [List.mem_singleton.mp hvm]
          exact hc.1
    · rw [if_neg hc]
      exact ih q h1 h2

/-- The visitation invariant: visited set, frontier and fetch log are
duplicate-free, the frontier is disjoint from the visited set, and every
URL whose fetch began is in the visited set. -/
def visitedConsistent (st : CrawlState) : Prop :=
  st.visitedUrls.Nodup ∧ st.urlsToVisit.Nodup ∧
  (∀ v ∈ st.urlsToVisit, v ∉ st.visitedUrls) ∧
  st.fetchLog.Nodup ∧ (∀ v ∈ st.fetchLog, v ∈ st.visitedUrls)

lemma crawlLoop_visitedConsistent (env : CrawlEnv) (o : Str) :
    ∀ (fuel : Nat) (st : CrawlState), visitedConsistent st →
      visitedConsistent (crawlLoop env o fuel st) := by
  intro fuel
  induction fuel with
  | zero => intro st h; simpa [crawlLoop] using h
  | succ n ih =>
    intro st h
    obtain ⟨h1, h2, h3, h4, h5⟩ := h
    cases hq : st.urlsToVisit with
    | nil => simp only [crawlLoop, hq]; exact ⟨h1, h2, h3, h4, h5⟩
    | cons u rest =>
      rw [hq] at h2 h3
      have hrestN : rest.Nodup := h2.of_cons
      have hunotr : u ∉ rest := (List.nodup_cons.mp h2).1
      simp only [crawlLoop, hq]
      by_cases hlt : st.pagesProcessed < env.job.maxPages
      · rw [if_pos hlt]
        by_cases hv : u ∈ st.visitedUrls
        · rw [if_pos hv]
          exact ih _ ⟨h1, hrestN, fun v hvr => h3 v (List.mem_cons_of_mem u hvr), h4, h5⟩
        · rw [if_neg hv]
          have hg1 : (st.visitedUrls ++ [u]).Nodup :=
            h1.append (List.nodup_singleton u) (List.disjoint_singleton.mpr hv)
          have hg3 : ∀ v ∈ rest, v ∉ st.visitedUrls ++ [u] := by
            intro v hvr hmem
            rcases List.mem_append.mp hmem with hm | hm
            · exact h3 v (List.mem_cons_of_mem u hvr) hm
            · rw [List.mem_singleton.mp hm] at hvr
              exact hunotr hvr
          have hg4 : (st.fetchLog ++ [u]).Nodup := by
            refine h4.append (List.nodup_singleton u) (List.disjoint_singleton.mpr ?_)
            exact fun hmem => hv (h5 u hmem)
          have hg5 : ∀ v ∈ st.fetchLog ++ [u], v ∈ st.visitedUrls ++ [u] := by
            intro v hvm
            rcases List.mem_append.mp hvm with hm | hm
            · exact List.mem_append_left _ (h5 v hm)
            · exact List.mem_append_right _ hm
          have hst1 : visitedConsistent (visitState env u rest st) :=
            ⟨hg1, hrestN, hg3, hg4, hg5⟩
          obtain ⟨g1, g2, g3, g4, g5⟩ := hst1
          cases hr : (fetchWithRetry (env.attempts u)).result with
          | some html =>
            simp only [hr]
            apply ih
            obtain ⟨_, _, e3, e4, e5, _, _, _⟩ :=
              processPage_fields env u html o (visitState env u rest st)
            have hfold :=
              enqueueFold_inv (visitState env u rest st).visitedUrls
                (extractLinks env.res env.parse html u o)
                (visitState env u rest st).urlsToVisit g2 g3
            refine ⟨?_, ?_, ?_, ?_, ?_⟩
            · rw [e3]; exact g1
            · rw [e5]; exact hfold.1
            · intro v hvm
              rw [e5] at hvm
              rw [e3]
              exact hfold.2 v hvm
            · rw [e4]; exact g4
            · intro v hvm
              rw [e4] at hvm
              rw [e3]
              exact g5 v hvm
          | none =>
            simp only [hr]
            apply ih
            split
            · exact ⟨g1, g2, g3, g4, g5⟩
            · exact ⟨g1, g2, g3, g4, g5⟩
      · rw [if_neg hlt]
        refine ⟨h1, ?_, ?_, h4, h5⟩
        · rw [hq]; exact h2
        · rw [hq]; exact h3

/-- Seed URL of the concrete budget-exhaustion scenario (Scenario C). -/
def seedUrl : Str := S "https://s.example/"

/-- A page with ten outbound same-origin links and no images. -/
def htmlTenLinks : Str :=
  S "<a href=\"/p0\">a</a><a href=\"/p1\">a</a><a href=\"/p2\">a</a><a href=\"/p3\">a</a><a href=\"/p4\">a</a><a href=\"/p5\">a</a><a href=\"/p6\">a</a><a href=\"/p7\">a</a><a href=\"/p8\">a</a><a href=\"/p9\">a</a>"

/-- Scenario C environment: `maxPages = 1`, the seed page has ten outbound
same-origin links. -/
def envC8 : CrawlEnv :=
  { res := specResolve, parse := specParse,
    attempts := fun u _ => if u = seedUrl then .ok htmlTenLinks else .netErr,
    job := createCrawlJob (S "job8")
      { targetUrl := seedUrl, maxPages := some 1, timeout := some 60000,
        includeCssBackgrounds := some true } }

/-- A page whose only image reference has the unresolvable source
`http://` (the WHATWG URL constructor throws on it even with a valid
base). -/
def htmlBadSrc : Str := S "<img src=\"http://\">"

/-- Environment for the unresolvable-image-URL scenario. -/
def envC1 : CrawlEnv :=
  { res := specResolve, parse := specParse,
    attempts := fun u _ => if u = seedUrl then .ok htmlBadSrc else .netErr,
    job := createCrawlJob (S "job1")
      { targetUrl := seedUrl, maxPages := some 1, timeout := some 60000,
        includeCssBackgrounds := some false } }

/-- A page containing only a CSS background-image declaration: no `<img>`
src, no `<picture>/<source>` srcset (Scenario D). -/
def cssOnlyHtml : Str := S "<div style=\"background-image:url(x.png)\"></div>"

/-- The insert request of Scenario D: `includeCssBackgrounds` explicitly
false. -/
def insertC4 : InsertCrawlJob :=
  { targetUrl := seedUrl, maxPages := some 5, timeout := some 60000,
    includeCssBackgrounds := some false }

/-- A page whose single `<img>` tag contains a newline and exceeds 400
characters (a 420-character alt attribute). -/
def htmlLongTag : Str :=
  S "<img\nsrc=\"/a.png\" alt=\"" ++ List.replicate 420 'x' ++ S "\">"

/-- Environment for the raw-markup scenario. -/
def envC9 : CrawlEnv :=
  { res := specResolve, parse := specParse,
    attempts := fun u _ => if u = seedUrl then .ok htmlLongTag else .netErr,
    job := createCrawlJob (S "job9")
      { targetUrl := seedUrl, maxPages := some 1, timeout := some 60000,
        includeCssBackgrounds := some false } }

/-- The rawMarkup post-processing of the legacy puppeteer-based
`CrawlerService.performCrawl` (not wired into the routes):
`html.replace(/\n|\r/g, ' ').slice(0, 400)`. -/
def legacyRawMarkup (h : Str) : Str :=
  (h.map (fun c => if c = '\n' ∨ c = '\r' then ' ' else c)).take 400

/-- An environment whose target URL does not parse, driving `startCrawl`
into its failure handler. -/
def envFail : CrawlEnv :=
  { res := specResolve, parse := fun _ => none, attempts := fun _ _ => .netErr,
    job := createCrawlJob (S "jobf")
      { targetUrl := S "not a url", maxPages := some 1, timeout := none,
        includeCssBackgrounds := none } }

/-- A state whose page budget is exhausted (`pagesProcessed = 1` with
`maxPages = 1` in `envC8`) while a URL is still queued. -/
def stStopped : CrawlState :=
  { visitedUrls := [seedUrl], urlsToVisit := [S "https://s.example/p0"],
    totalImages := 0, pagesProcessed := 1, failedPages := 0, fetchLog := [seedUrl],
    records := [], updates := [], snaps := [] }

/-- A state whose queue head is already visited. -/
def stSkip : CrawlState :=
  { visitedUrls := [seedUrl], urlsToVisit := [seedUrl], totalImages := 0,
    pagesProcessed := 0, failedPages := 0, fetchLog := [seedUrl], records := [],
    updates := [], snaps := [] }

set_option maxRecDepth 10000 in
example : (startCrawlRun envC8 5).pagesProcessed = 1 := by decide
set_option maxRecDepth 10000 in
example : (startCrawlRun envC8 5).urlsToVisit.length = 10 := by decide

example : decodeHtmlEntities (S "&amp;amp;") = S "&amp;" := by decide
example : decodeHtmlEntities (S "&amp;") = S "&" := by decide
example :
    fixNextJsImageUrl (S "/_next/image?url=a") = S "/_next/image?url=a&w=640&q=75" := by
  decide
example : fixNextJsImageUrl (S "/a.png") = S "/a.png" := by decide

/-! Claim theorems. -/

/-- C2: for every crawl run, `pagesProcessed` never exceeds `maxPages` —
in the final state, in every persisted job update, and in every emitted
snapshot — and the loop stops processing new pages once `pagesProcessed`
has reached `maxPages` (it returns its state unchanged). -/
theorem claim_C2 :
    (∀ (env : CrawlEnv) (fuel : Nat) (st' : CrawlState),
        performSimpleCrawl env fuel = .ok st' →
        st'.pagesProcessed ≤ env.job.maxPages ∧
        (∀ p ∈ st'.updates, ∀ v, p.pagesProcessed = some v → v ≤ env.job.maxPages) ∧
        (∀ s ∈ st'.snaps, s.pagesProcessed ≤ env.job.maxPages)) ∧
    (∀ (env : CrawlEnv) (o : Str) (fuel : Nat) (st : CrawlState),
        ¬ st.pagesProcessed < env.job.maxPages → crawlLoop env o fuel st = st) := by
  constructor
  · intro env fuel st' hok
    cases hp : env.parse env.job.targetUrl with
    | none =>
      simp only [performSimpleCrawl, hp] at hok
      exact Except.noConfusion hok
    | some tparts =>
      simp only [performSimpleCrawl, hp] at hok
      injection hok with h
      subst h
      set L := crawlLoop env tparts.origin fuel (initState env) with hL
      have hinit : pagesBounded env.job.maxPages (initState env) := by
        refine ⟨Nat.zero_le _, ?_, ?_⟩
        · intro p hp' v hveq
          rw [List.mem_singleton.mp hp'] at hveq
          exact Option.noConfusion hveq
        · intro s hs
          rw [List.mem_singleton.mp hs]
          exact Nat.zero_le _
      obtain ⟨l1, l2, l3⟩ := crawlLoop_pagesBounded env tparts.origin fuel (initState env) hinit
      refine ⟨l1, ?_, ?_⟩
      · intro p hp' v hveq
        have hup : (applyCompletion L).updates = L.updates ++ [completionPatch L] := rfl
        rw [hup] at hp'
        rcases List.mem_append.mp hp' with h | h
        · exact l2 p h v hveq
        · rw [List.mem_singleton.mp h] at hveq
          rw [(Option.some.inj hveq).symm]
          exact l1
      · intro s hs
        have hsn : (applyCompletion L).snaps = L.snaps ++ [completionSnap L] := rfl
        rw [hsn] at hs
        rcases List.mem_append.mp hs with h | h
        · exact l3 s h
        · rw [List.mem_singleton.mp h]
          exact l1
  · intro env o fuel st hge
    cases fuel with
    | zero => rfl
    | succ n =>
      cases hq : st.urlsToVisit with
      | nil => simp only [crawlLoop, hq]
      | cons u rest =>
        simp only [crawlLoop, hq]
        rw [if_neg hge]

set_option maxRecDepth 40000 in
/-- Witness for claim_C2: the Scenario C run stays within its budget, and
the loop is a no-op on a budget-exhausted state. -/
theorem claim_C2_witness :
    ((startCrawlRun envC8 5).pagesProcessed ≤ envC8.job.maxPages ∧
     (∀ p ∈ (startCrawlRun envC8 5).updates, ∀ v, p.pagesProcessed = some v →
        v ≤ envC8.job.maxPages) ∧
     (∀ s ∈ (startCrawlRun envC8 5).snaps, s.pagesProcessed ≤ envC8.job.maxPages)) ∧
    crawlLoop envC8 (S "https://s.example") 3 stStopped = stStopped :=
  ⟨claim_C2.1 envC8 5 (startCrawlRun envC8 5) (by rfl),
   claim_C2.2 envC8 (S "https://s.example") 3 stStopped (by decide)⟩

/-- C3: per job, a URL's fetch begins at most once (the fetch log is
duplicate-free and contained in the visited set); a dequeued URL already
in the visited set is skipped with no other state change; the URL is in
the visited set, and logged, in the state in which its fetch begins; and
links already visited or already queued are never enqueued again (the
frontier stays duplicate-free and disjoint from the visited set). -/
theorem claim_C3 :
    (∀ (env : CrawlEnv) (fuel : Nat) (st' : CrawlState),
        performSimpleCrawl env fuel = .ok st' →
        st'.fetchLog.Nodup ∧ (∀ v ∈ st'.fetchLog, v ∈ st'.visitedUrls) ∧
        st'.urlsToVisit.Nodup ∧ (∀ v ∈ st'.urlsToVisit, v ∉ st'.visitedUrls)) ∧
    (∀ (env : CrawlEnv) (o : Str) (fuel : Nat) (st : CrawlState) (u : Str) (rest : List Str),
        st.urlsToVisit = u :: rest → st.pagesProcessed < env.job.maxPages →
        u ∈ st.visitedUrls →
        crawlLoop env o (fuel + 1) st = crawlLoop env o fuel { st with urlsToVisit := rest }) ∧
    (∀ (env : CrawlEnv) (u : Str) (rest : List Str) (st : CrawlState),
        u ∈ (visitState env u rest st).visitedUrls ∧
        (visitState env u rest st).fetchLog = st.fetchLog ++ [u]) ∧
    (∀ (env : CrawlEnv) (o : Str) (fuel : Nat) (st : CrawlState) (u : Str) (rest : List Str),
        st.urlsToVisit = u :: rest → st.pagesProcessed < env.job.maxPages →
        u ∉ st.visitedUrls →
        crawlLoop env o (fuel + 1) st =
          match (fetchWithRetry (env.attempts u)).result with
          | some html =>
            crawlLoop env o fuel (processPage env u html o (visitState env u rest st))
          | none =>
            crawlLoop env o fuel
              (if (fetchWithRetry (env.attempts u)).netFail then
                 { visitState env u rest st with
                   failedPages := (visitState env u rest st).failedPages + 1 }
               else visitState env u rest st)) := by
  refine ⟨?_, ?_, ?_, ?_⟩
  · intro env fuel st' hok
    cases hp : env.parse env.job.targetUrl with
    | none =>
      simp only [performSimpleCrawl, hp] at hok
      exact Except.noConfusion hok
    | some tparts =>
      simp only [performSimpleCrawl, hp] at hok
      injection hok with h
      subst h
      have hinit : visitedConsistent (initState env) := by
        refine ⟨List.nodup_nil, List.nodup_singleton _, ?_, List.nodup_nil, ?_⟩
        · intro v hv
          simp [initState]
        · intro v hv
          simp [initState] at hv
      obtain ⟨g1, g2, g3, g4, g5⟩ :=
        crawlLoop_visitedConsistent env tparts.origin fuel (initState env) hinit
      exact ⟨g4, g5, g2, g3⟩
  · intro env o fuel st u rest hq hlt hv
    simp only [crawlLoop, hq]
    rw [if_pos hlt, if_pos hv]
  · intro env u rest st
    exact ⟨List.mem_append_right _ (List.mem_singleton.mpr rfl), rfl⟩
  · intro env o fuel st u rest hq hlt hv
    simp only [crawlLoop, hq]
    rw [if_pos hlt, if_neg hv]

set_option maxRecDepth 40000 in
/-- Witness for claim_C3: the Scenario C run has a duplicate-free fetch
log; the skip step drops a visited queue head without other changes; the
visit state contains the current URL; and the fetch step runs against the
visit state. -/
theorem claim_C3_witness :
    (startCrawlRun envC8 5).fetchLog.Nodup ∧
    crawlLoop envC8 (S "https://s.example") 1 stSkip =
      crawlLoop envC8 (S "https://s.example") 0 { stSkip with urlsToVisit := [] } ∧
    seedUrl ∈ (visitState envC8 seedUrl [] stSkip).visitedUrls ∧
    crawlLoop envC1 (S "https://s.example") 1 (initState envC1) =
      crawlLoop envC1 (S "https://s.example") 0
        (processPage envC1 seedUrl htmlBadSrc (S "https://s.example")
          (visitState envC1 seedUrl [] (initState envC1))) := by
  refine ⟨(claim_C3.1 envC8 5 (startCrawlRun envC8 5) (by rfl)).1,
          claim_C3.2.1 envC8 (S "https://s.example") 0 stSkip seedUrl []
            (by decide) (by decide) (by decide),
          (claim_C3.2.2.1 envC8 seedUrl [] stSkip).1, ?_⟩
  have h := claim_C3.2.2.2 envC1 (S "https://s.example") 0 (initState envC1) seedUrl []
    (by decide) (by decide) (by decide)
  rw [h]
  rfl

lemma retryAux_trace_len (att : Nat → FetchAttempt) :
    ∀ (fuel rc : Nat), (retryAux att rc fuel).trace.length ≤ fuel := by
  intro fuel
  induction fuel with
  | zero => intro rc; simp [retryAux]
  | succ n ih =>
    intro rc
    cases hatt : att rc with
    | ok h => simp [retryAux, hatt]
    | httpErr =>
      simp only [retryAux, hatt]
      split
      · simpa using Nat.succ_le_succ (ih (rc + 1))
      · simp
    | timeoutErr =>
      simp only [retryAux, hatt]
      split
      · simpa using Nat.succ_le_succ (ih (rc + 1))
      · simp
    | netErr =>
      simp only [retryAux, hatt]
      split
      · simpa using Nat.succ_le_succ (ih (rc + 1))
      · simp

/-- C5: the per-page fetch makes at most `maxRetries + 1 = 3` attempts; a
non-2xx status and a generic network error both retry after
`1000 * retryCount` ms, a timeout retries after the longer
`2000 * retryCount` ms; once `retryCount` reaches `maxRetries` the loop
breaks without another attempt; and regardless of any page failures every
run that enters the loop ends with the completed update. -/
theorem claim_C5 :
    (∀ (att : Nat → FetchAttempt) (rc : Nat),
        (retryAux att rc (maxRetries + 1)).trace.length ≤ 3) ∧
    (∀ (att : Nat → FetchAttempt) (k fuel : Nat), k < maxRetries → att k = .httpErr →
        retryAux att k (fuel + 1) =
          { result := (retryAux att (k + 1) fuel).result,
            netFail := (retryAux att (k + 1) fuel).netFail,
            trace := (.httpErr, some (1000 * (k + 1))) :: (retryAux att (k + 1) fuel).trace }) ∧
    (∀ (att : Nat → FetchAttempt) (k fuel : Nat), k < maxRetries → att k = .timeoutErr →
        retryAux att k (fuel + 1) =
          { result := (retryAux att (k + 1) fuel).result,
            netFail := (retryAux att (k + 1) fuel).netFail,
            trace := (.timeoutErr, some (2000 * (k + 1))) :: (retryAux att (k + 1) fuel).trace }) ∧
    (∀ (att : Nat → FetchAttempt) (k fuel : Nat), k < maxRetries → att k = .netErr →
        retryAux att k (fuel + 1) =
          { result := (retryAux att (k + 1) fuel).result,
            netFail := (retryAux att (k + 1) fuel).netFail,
            trace := (.netErr, some (1000 * (k + 1))) :: (retryAux att (k + 1) fuel).trace }) ∧
    (∀ (att : Nat → FetchAttempt) (k fuel : Nat), ¬ k < maxRetries → att k = .httpErr →
        retryAux att k (fuel + 1) = ⟨none, false, [(.httpErr, none)]⟩) ∧
    (∀ (att : Nat → FetchAttempt) (k fuel : Nat), ¬ k < maxRetries → att k = .timeoutErr →
        retryAux att k (fuel + 1) = ⟨none, false, [(.timeoutErr, none)]⟩) ∧
    (∀ (env : CrawlEnv) (fuel : Nat) (st' : CrawlState),
        performSimpleCrawl env fuel = .ok st' →
        ∃ L : CrawlState, st'.updates.getLast? = some (completionPatch L) ∧
          (completionPatch L).status = some (S "completed")) := by
  refine ⟨?_, ?_, ?_, ?_, ?_, ?_, ?_⟩
  · intro att rc
    exact retryAux_trace_len att (maxRetries + 1) rc
  · intro att k fuel hk hatt
    simp only [retryAux, hatt]
    rw [if_pos hk]
  · intro att k fuel hk hatt
    simp only [retryAux, hatt]
    rw [if_pos hk]
  · intro att k fuel hk hatt
    simp only [retryAux, hatt]
    rw [if_pos hk]
  · intro att k fuel hk hatt
    simp only [retryAux, hatt]
    rw [if_neg hk]
  · intro att k fuel hk hatt
    simp only [retryAux, hatt]
    rw [if_neg hk]
  · intro env fuel st' hok
    cases hp : env.parse env.job.targetUrl with
    | none =>
      simp only [performSimpleCrawl, hp] at hok
      exact Except.noConfusion hok
    | some tparts =>
      simp only [performSimpleCrawl, hp] at hok
      injection hok with h
      subst h
      refine ⟨crawlLoop env tparts.origin fuel (initState env), ?_, rfl⟩
      have hup : (applyCompletion (crawlLoop env tparts.origin fuel (initState env))).updates =
          (crawlLoop env tparts.origin fuel (initState env)).updates ++
            [completionPatch (crawlLoop env tparts.origin fuel (initState env))] := rfl
      rw [hup]
      exact List.getLast?_concat _

set_option maxRecDepth 40000 in
/-- Witness for claim_C5: an always-503 page makes three attempts with
1000- and 2000-ms-scaled delays, a timeout retries with the longer base,
exhaustion stops the loop, and the Scenario C run ends completed. -/
theorem claim_C5_witness :
    (retryAux (fun _ => FetchAttempt.httpErr) 0 (maxRetries + 1)).trace.length ≤ 3 ∧
    retryAux (fun _ => FetchAttempt.httpErr) 0 3 =
      { result := (retryAux (fun _ => FetchAttempt.httpErr) 1 2).result,
        netFail := (retryAux (fun _ => FetchAttempt.httpErr) 1 2).netFail,
        trace := (FetchAttempt.httpErr, some 1000) ::
          (retryAux (fun _ => FetchAttempt.httpErr) 1 2).trace } ∧
    retryAux (fun _ => FetchAttempt.timeoutErr) 1 2 =
      { result := (retryAux (fun _ => FetchAttempt.timeoutErr) 2 1).result,
        netFail := (retryAux (fun _ => FetchAttempt.timeoutErr) 2 1).netFail,
        trace := (FetchAttempt.timeoutErr, some 4000) ::
          (retryAux (fun _ => FetchAttempt.timeoutErr) 2 1).trace } ∧
    retryAux (fun _ => FetchAttempt.netErr) 0 3 =
      { result := (retryAux (fun _ => FetchAttempt.netErr) 1 2).result,
        netFail := (retryAux (fun _ => FetchAttempt.netErr) 1 2).netFail,
        trace := (FetchAttempt.netErr, some 1000) ::
          (retryAux (fun _ => FetchAttempt.netErr) 1 2).trace } ∧
    retryAux (fun _ => FetchAttempt.httpErr) 2 1 = ⟨none, false, [(.httpErr, none)]⟩ ∧
    retryAux (fun _ => FetchAttempt.timeoutErr) 2 1 = ⟨none, false, [(.timeoutErr, none)]⟩ ∧
    (∃ L : CrawlState, (startCrawlRun envC8 5).updates.getLast? = some (completionPatch L) ∧
      (completionPatch L).status = some (S "completed")) :=
  ⟨claim_C5.1 (fun _ => FetchAttempt.httpErr) 0,
   claim_C5.2.1 (fun _ => FetchAttempt.httpErr) 0 2 (by decide) rfl,
   claim_C5.2.2.1 (fun _ => FetchAttempt.timeoutErr) 1 1 (by decide) rfl,
   claim_C5.2.2.2.1 (fun _ => FetchAttempt.netErr) 0 2 (by decide) rfl,
   claim_C5.2.2.2.2.1 (fun _ => FetchAttempt.httpErr) 2 0 (by decide) rfl,
   claim_C5.2.2.2.2.2.1 (fun _ => FetchAttempt.timeoutErr) 2 0 (by decide) rfl,
   claim_C5.2.2.2.2.2.2 envC8 5 (startCrawlRun envC8 5) (by rfl)⟩

/-- A string containing none of the six entity sequences. -/
def noEntities (t : Str) : Prop :=
  ¬ S "&amp;" <:+: t ∧ ¬ S "&lt;" <:+: t ∧ ¬ S "&gt;" <:+: t ∧ ¬ S "&quot;" <:+: t ∧
  ¬ S "&#39;" <:+: t ∧ ¬ S "&nbsp;" <:+: t

instance (t : Str) : Decidable (noEntities t) := by
  unfold noEntities; infer_instance

lemma decode_of_noEntities {t : Str} (h : noEntities t) : decodeHtmlEntities t = t := by
  obtain ⟨h1, h2, h3, h4, h5, h6⟩ := h
  unfold decodeHtmlEntities
  rw [show replace1 (S "&amp;") (S "&") t = t from replace1_eq_self (S "&") h1,
      show replace1 (S "&lt;") (S "<") t = t from replace1_eq_self (S "<") h2,
      show replace1 (S "&gt;") (S ">") t = t from replace1_eq_self (S ">") h3,
      show replace1 (S "&quot;") (S "\"") t = t from replace1_eq_self (S "\"") h4,
      show replace1 (S "&#39;") [squot] t = t from replace1_eq_self [squot] h5,
      show replace1 (S "&nbsp;") (S " ") t = t from replace1_eq_self (S " ") h6]

/-- C6 counterexample: decoding is not idempotent — on the double-encoded
input `&amp;amp;` one pass yields `&amp;` and a second pass decodes it
further to `&`. -/
theorem claim_C6_counterexample :
    decodeHtmlEntities (decodeHtmlEntities (S "&amp;amp;")) ≠
      decodeHtmlEntities (S "&amp;amp;") := by decide

/-- C6 (amended): decoding is idempotent exactly on inputs whose decoded
form contains no residual entity sequence; an already fully-decoded
string is a fixed point, but double-encoded entities (e.g. `&amp;amp;`)
decode further on a second pass. -/
theorem claim_C6_amended (s : Str) (h : noEntities (decodeHtmlEntities s)) :
    decodeHtmlEntities (decodeHtmlEntities s) = decodeHtmlEntities s :=
  decode_of_noEntities h

/-- Witness for claim_C6_amended at `a&amp;b`. -/
theorem claim_C6_amended_witness :
    noEntities (decodeHtmlEntities (S "a&amp;b")) ∧
    decodeHtmlEntities (decodeHtmlEntities (S "a&amp;b")) = decodeHtmlEntities (S "a&amp;b") :=
  ⟨by decide, claim_C6_amended (S "a&amp;b") (by decide)⟩

/-- C7: the persisted candidate URLs equal the raw extraction results
post-processed by resolve, then six-entity decoding, then the
`/_next/image` fix-up, applied uniformly (as a single map) over all three
sources; the page step persists exactly one record per candidate; and the
stored record's imageUrl is the candidate's imageUrl verbatim. -/
theorem claim_C7 :
    (∀ (res : Str → Str → Option Str) (html base : Str) (css : Bool),
        extractImages res html base css =
          (rawCandidates html css).map (specOrderCandidate res base)) ∧
    (∀ (env : CrawlEnv) (u html o : Str) (st : CrawlState),
        (processPage env u html o st).records =
          st.records ++ (extractImages env.res html u env.job.includeCssBackgrounds).map
            (fun c => createCrawledImage (mkImageInsert env.parse env.job.id u c))) ∧
    (∀ (parse : Str → Option UrlParts) (jobId pageUrl : Str) (c : ImageCandidate),
        (createCrawledImage (mkImageInsert parse jobId pageUrl c)).imageUrl = c.imageUrl) :=
  ⟨extractImages_eq_specOrder, fun _ _ _ _ _ => rfl, fun _ _ _ _ => rfl⟩

/-- C10: the failure handler of startCrawl emits a snapshot whose
counters are all hard-coded to zero, and its job update carries only
status, error and completedAt, so the merge in the store keeps every
previously written counter unchanged. -/
theorem claim_C10 :
    (∀ (st : CrawlState) (msg : Str),
        (applyFailure st msg).snaps = st.snaps ++ [failSnap msg] ∧
        (applyFailure st msg).updates = st.updates ++ [failPatch msg] ∧
        (failSnap msg).progress = 0 ∧ (failSnap msg).pagesProcessed = 0 ∧
        (failSnap msg).totalPagesFound = 0 ∧ (failSnap msg).imagesFound = 0 ∧
        (failSnap msg).status = S "failed" ∧ (failSnap msg).error = some msg) ∧
    (∀ (j : CrawlJobRec) (msg : Str),
        (updateCrawlJob j (failPatch msg)).pagesProcessed = j.pagesProcessed ∧
        (updateCrawlJob j (failPatch msg)).imagesFound = j.imagesFound ∧
        (updateCrawlJob j (failPatch msg)).totalPagesFound = j.totalPagesFound ∧
        (updateCrawlJob j (failPatch msg)).progress = j.progress ∧
        (updateCrawlJob j (failPatch msg)).currentPage = j.currentPage ∧
        (updateCrawlJob j (failPatch msg)).targetUrl = j.targetUrl ∧
        (updateCrawlJob j (failPatch msg)).status = S "failed" ∧
        (updateCrawlJob j (failPatch msg)).error = some msg ∧
        (updateCrawlJob j (failPatch msg)).completedAt = some 0) ∧
    (∀ (env : CrawlEnv) (fuel : Nat) (st : CrawlState) (msg : Str),
        performSimpleCrawl env fuel = .error (st, msg) →
        startCrawlRun env fuel = applyFailure st msg) := by
  refine ⟨fun st msg => ⟨rfl, rfl, rfl, rfl, rfl, rfl, rfl, rfl⟩,
          fun j msg => ⟨rfl, rfl, rfl, rfl, rfl, rfl, rfl, rfl, rfl⟩, ?_⟩
  intro env fuel st msg herr
  unfold startCrawlRun
  rw [herr]

/-- Witness for claim_C10: a run whose seed URL fails to parse goes
through the failure handler. -/
theorem claim_C10_witness :
    startCrawlRun envFail 1 =
      applyFailure
        { visitedUrls := [], urlsToVisit := [], totalImages := 0, pagesProcessed := 0,
          failedPages := 0, fetchLog := [], records := [], updates := [runningPatch],
          snaps := [] } (S "Invalid URL") :=
  claim_C10.2.2 envFail 1 _ _ (by rfl)

set_option maxRecDepth 40000 in
/-- C1 counterexample: the image source `http://` fails URL resolution
against the page URL (and does not parse as an absolute URL), yet the
crawl of a page containing `<img src="http://">` persists one record
whose imageUrl is the unresolved string itself. -/
theorem claim_C1_counterexample :
    specResolve (S "http://") seedUrl = none ∧
    (startCrawlRun envC1 3).records.map (fun r => r.imageUrl) = [S "http://"] ∧
    specParse (S "http://") = none :=
  ⟨by decide, by decide, by decide⟩

/-- C1 (amended): candidates with an empty `src` are dropped, but a
candidate whose URL fails resolution is NOT dropped — `resolveUrl`
returns the unresolved input unchanged and the page step persists one
record per extracted candidate unconditionally. -/
theorem claim_C1_amended :
    (∀ (res : Str → Str → Option Str) (url base : Str), res url base = none →
        resolveUrl res url base = url) ∧
    (∀ (res : Str → Str → Option Str) (url base u : Str), res url base = some u →
        resolveUrl res url base = u) ∧
    (∀ (res : Str → Str → Option Str) (base tag : Str), findAttr (S "src") tag = some [] →
        imgTagCandidate res base tag = none) ∧
    (∀ (env : CrawlEnv) (u html o : Str) (st : CrawlState),
        (processPage env u html o st).records.length =
          st.records.length +
            (extractImages env.res html u env.job.includeCssBackgrounds).length) := by
  refine ⟨?_, ?_, ?_, ?_⟩
  · intro res url base h
    unfold resolveUrl
    rw [h]
  · intro res url base u h
    unfold resolveUrl
    rw [h]
  · intro res base tag h
    unfold imgTagCandidate
    rw [h]
    simp
  · intro env u html o st
    simp [processPage]

/-- Witness for claim_C1_amended. -/
theorem claim_C1_amended_witness :
    resolveUrl specResolve (S "http://") seedUrl = S "http://" ∧
    resolveUrl specResolve (S "/a.png") seedUrl = S "https://s.example/a.png" ∧
    imgTagCandidate specResolve seedUrl (S "<img src=\"\">") = none :=
  ⟨claim_C1_amended.1 specResolve (S "http://") seedUrl (by decide),
   claim_C1_amended.2.1 specResolve (S "/a.png") seedUrl (S "https://s.example/a.png") (by decide),
   claim_C1_amended.2.2.1 specResolve seedUrl (S "<img src=\"\">") (by decide)⟩

/-- Environment of Scenario D run from `insertC4` (the request with
`includeCssBackgrounds := false`). -/
def envC4 : CrawlEnv :=
  { res := specResolve, parse := specParse,
    attempts := fun u _ => if u = seedUrl then .ok cssOnlyHtml else .netErr,
    job := createCrawlJob (S "job4") insertC4 }

set_option maxRecDepth 40000 in
/-- C4: the claim is right and the code is wrong. `createCrawlJob`
computes `includeCssBackgrounds: insertJob.includeCssBackgrounds || true`,
so the job created from a request with the flag `false` stores `true`
(`false || true`), and the crawl of a page containing only a CSS
`background-image:url(x.png)` declaration persists one image record,
although extraction with the flag actually false yields none. -/
theorem claim_C4_bug :
    insertC4.includeCssBackgrounds = some false ∧
    (createCrawlJob (S "job4") insertC4).includeCssBackgrounds = true ∧
    extractImages specResolve cssOnlyHtml seedUrl false = [] ∧
    (startCrawlRun envC4 3).records.length = 1 ∧
    (startCrawlRun envC4 3).records.map (fun r => r.imageUrl) =
      [S "https://s.example/x.png"] :=
  ⟨by decide, by decide, by decide, by decide, by decide⟩

set_option maxRecDepth 40000 in
/-- C8 counterexample: with `maxPages = 1` on a page with ten outbound
same-origin links, the loop ends with one visited URL and ten queued
(discovered+queued = 11), but the terminal completed update and the final
snapshot report `totalPagesFound = 1` (the visited count), not 11. -/
theorem claim_C8_counterexample :
    (startCrawlRun envC8 5).visitedUrls.length +
        (startCrawlRun envC8 5).urlsToVisit.length = 11 ∧
    (startCrawlRun envC8 5).pagesProcessed = 1 ∧
    ((startCrawlRun envC8 5).snaps.getLast?).map (fun s => s.status) =
      some (S "completed") ∧
    ((startCrawlRun envC8 5).snaps.getLast?).map (fun s => s.totalPagesFound) = some 1 ∧
    ((startCrawlRun envC8 5).updates.getLast?).bind (fun p => p.totalPagesFound) = some 1 :=
  ⟨by decide, by decide, by decide, by decide, by decide⟩

set_option maxRecDepth 40000 in
/-- C8 (amended): `pagesProcessed` stops at `maxPages` and the
discovered+queued count appears in the last in-loop update, but the
terminal completed update and final snapshot overwrite `totalPagesFound`
with `visitedUrls.size` alone. -/
theorem claim_C8_amended :
    (∀ st : CrawlState,
        (applyCompletion st).updates.getLast? = some (completionPatch st) ∧
        (applyCompletion st).snaps.getLast? = some (completionSnap st) ∧
        (completionPatch st).totalPagesFound = some st.visitedUrls.length ∧
        (completionSnap st).totalPagesFound = st.visitedUrls.length ∧
        (completionPatch st).pagesProcessed = some st.pagesProcessed) ∧
    ((startCrawlRun envC8 5).pagesProcessed = envC8.job.maxPages ∧
     (startCrawlRun envC8 5).urlsToVisit.length = 10 ∧
     ((startCrawlRun envC8 5).updates.get? 1).bind (fun p => p.totalPagesFound) = some 11) := by
  constructor
  · intro st
    exact ⟨List.getLast?_concat _, List.getLast?_concat _, rfl, rfl, rfl⟩
  · exact ⟨by decide, by decide, by decide⟩

set_option maxRecDepth 40000 in
/-- C9 counterexample: a page whose single `<img>` tag contains a newline
and is longer than 400 characters is persisted with its raw markup
verbatim — the stored `imgTagHtml` still contains the newline and exceeds
400 characters. -/
theorem claim_C9_counterexample :
    (startCrawlRun envC9 3).records.length = 1 ∧
    (startCrawlRun envC9 3).records.map
      (fun r => (r.imgTagHtml.getD []).contains '\n') = [true] ∧
    (startCrawlRun envC9 3).records.map
      (fun r => decide (400 < (r.imgTagHtml.getD []).length)) = [true] :=
  ⟨by decide, by decide, by decide⟩

/-- C9 (amended): the crawler wired into the routes persists the matched
markup verbatim (empty markup becomes null, nothing is truncated or
collapsed); only the legacy puppeteer-based CrawlerService applies the
newline-collapse-and-400-character bound, and that transformation does
guarantee the claimed invariant. -/
theorem claim_C9_amended :
    (∀ (parse : Str → Option UrlParts) (jobId pageUrl : Str) (c : ImageCandidate),
        c.html ≠ [] →
        (createCrawledImage (mkImageInsert parse jobId pageUrl c)).imgTagHtml = some c.html) ∧
    (∀ (parse : Str → Option UrlParts) (jobId pageUrl : Str) (c : ImageCandidate),
        c.html = [] →
        (createCrawledImage (mkImageInsert parse jobId pageUrl c)).imgTagHtml = none) ∧
    (∀ h : Str, (legacyRawMarkup h).length ≤ 400 ∧
        '\n' ∉ legacyRawMarkup h ∧ '\r' ∉ legacyRawMarkup h) := by
  refine ⟨?_, ?_, ?_⟩
  · intro parse jobId pageUrl c hne
    simp [createCrawledImage, mkImageInsert, hne]
  · intro parse jobId pageUrl c he
    simp [createCrawledImage, mkImageInsert, he]
  · intro h
    refine ⟨?_, ?_, ?_⟩
    · simp only [legacyRawMarkup, List.length_take]
      omega
    · intro hm
      have hm2 := List.take_subset _ _ hm
      obtain ⟨c, _, hfc⟩ := List.mem_map.mp hm2
      by_cases hcc : c = '\n' ∨ c = '\r'
      · rw [if_pos hcc] at hfc
        exact absurd hfc (by decide)
      · rw [if_neg hcc] at hfc
        exact hcc (Or.inl hfc)
    · intro hm
      have hm2 := List.take_subset _ _ hm
      obtain ⟨c, _, hfc⟩ := List.mem_map.mp hm2
      by_cases hcc : c = '\n' ∨ c = '\r'
      · rw [if_pos hcc] at hfc
        exact absurd hfc (by decide)
      · rw [if_neg hcc] at hfc
        exact hcc (Or.inr hfc)

/-- Witness for claim_C9_amended. -/
theorem claim_C9_amended_witness :
    (createCrawledImage (mkImageInsert specParse (S "j") seedUrl
        ⟨S "u", [], S "<img x>"⟩)).imgTagHtml = some (S "<img x>") ∧
    (createCrawledImage (mkImageInsert specParse (S "j") seedUrl
        ⟨S "u", [], []⟩)).imgTagHtml = none ∧
    (legacyRawMarkup (S "a\nb")).length ≤ 400 :=
  ⟨claim_C9_amended.1 specParse (S "j") seedUrl ⟨S "u", [], S "<img x>"⟩ (by decide),
   claim_C9_amended.2.1 specParse (S "j") seedUrl ⟨S "u", [], []⟩ (by decide),
   (claim_C9_amended.2.2 (S "a\nb")).1⟩
